import Mathlib

/-!
# EventLoop: a shallow embedding of `eventloop.cc`

The development follows the C++ source function by function.

* Time values are `timeval` records of two (64-bit, here unbounded) signed
  fields; C's `/` and `%` on signed operands truncate toward zero and are
  rendered by `Int.tdiv` and `Int.tmod`; the `int` result of `TimeDiff` is the
  32-bit two's-complement wrap of the `long` expression it returns.
* Event objects live at addresses (`EventId`); the loop state carries a heap
  from addresses to timer objects, and the timer registry
  `std::set<TimerEvent *, Compare>` is the list of the addresses it holds in
  iteration order, with `insert` and `erase` doing the lower-bound search of
  the ordered container through `Compare`, which reads the deadlines through
  the pointers at the time of the call.
* Virtual callbacks (`OnEvents`, `OnTimer`) are parameters: functions on the
  loop state.
* The callbacks of a `BufferIOEvent` (`OnReceived`, `OnSent`, `OnClosed`,
  `OnError`) and its system calls are recorded in a trace; they are taken not
  to call back into the event while one of its methods runs. The outcome of
  each `read` and `write` is an input.
* The outcome of each poll (`epoll_wait`) and of each `gettimeofday` is an
  input; `StartLoop` runs one iteration for each poll outcome supplied.
* The `SignalManager` keeps, for each signal number, the set of registered
  events as a duplicate-free list of addresses.
* The loop of `DoTimeout` need not terminate (a callback may re-arm a timer
  that is due at once), so it is run for a bounded number of iterations and
  reports whether it has left the loop; the write loop of
  `BufferIOEvent::OnEvents` is treated the same way.
-/

namespace eventloop

/-! ## Time -/

/-- The C `struct timeval`: seconds and microseconds. -/
structure timeval where
  tv_sec : Int
  tv_usec : Int
deriving DecidableEq

/-- Conversion of a `long` value to `int`: two's-complement wrap to 32 bits. -/
def toInt32 (x : Int) : Int :=
  (x + 2147483648) % 4294967296 - 2147483648

/-- The function `static int TimeDiff(timeval tv1, timeval tv2)`: the difference in
milliseconds, the microsecond part divided with truncation toward zero. -/
def TimeDiff (tv1 tv2 : timeval) : Int :=
  toInt32 ((tv1.tv_sec - tv2.tv_sec) * 1000 + (tv1.tv_usec - tv2.tv_usec).tdiv 1000)

/-- The result of an addition of two `long` values (the 64-bit `time_t` and
`suseconds_t`): two's-complement wrap to 64 bits. -/
def toInt64 (x : Int) : Int :=
  (x + 9223372036854775808) % 18446744073709551616 - 9223372036854775808

/-- The function `static timeval TimeAdd(timeval tv1, timeval tv2)`; each of
its three `+=` is an addition of 64-bit `long` fields, and `/` and `%` truncate
toward zero. -/
def TimeAdd (tv1 tv2 : timeval) : timeval :=
  let sec := toInt64 (tv1.tv_sec + tv2.tv_sec)
  let usec := toInt64 (tv1.tv_usec + tv2.tv_usec)
  { tv_sec := toInt64 (sec + usec.tdiv 1000000), tv_usec := usec.tmod 1000000 }

/-- A timeval is normalised when `0 <= tv_usec < 1000000`. -/
def timeval.normalised (tv : timeval) : Prop :=
  0 ≤ tv.tv_usec ∧ tv.tv_usec < 1000000

instance timeval.decNormalised (tv : timeval) : Decidable tv.normalised := by
  unfold timeval.normalised; infer_instance

/-- The instant a timeval denotes, in microseconds. -/
def timeval.usecs (tv : timeval) : Int :=
  tv.tv_sec * 1000000 + tv.tv_usec

/-- The deadline `tv` is strictly later than `now`, compared as the pair
(tv_sec, tv_usec). -/
def timeval.later (tv now : timeval) : Prop :=
  now.tv_sec < tv.tv_sec ∨ (now.tv_sec = tv.tv_sec ∧ now.tv_usec < tv.tv_usec)

instance timeval.decLater (tv now : timeval) : Decidable (tv.later now) := by
  unfold timeval.later; infer_instance

/-! ## Event objects and the loop state -/

/-- The address of an event object. -/
abbrev EventId := Nat

/-- The constant `TimerEvent::TIMER`. -/
def TIMER : Nat := 1

/-- The fields of a timer object: `time_` of `TimerEvent` (declared as
`BaseTimerEvent` in `eventloop.h`), and `interval_`, `running_` and `el_` of
`PeriodicTimerEvent` (`el_` records whether the pointer to the owning loop is
non-null). -/
structure TimerEvent where
  time_ : timeval
  interval_ : timeval
  running_ : Bool
  el_ : Bool
deriving DecidableEq

/-- The members of `EventLoop` that the timer path uses: `now_`, `stop_`, the
set `timers_` of the `TimerManager` behind `timermanager_`, and the heap of
timer objects the pointers in the set refer to. -/
structure EventLoop where
  now_ : timeval
  stop_ : Bool
  timers_ : List EventId
  heap : EventId → TimerEvent

/-- The accessor `TimerEvent::Time()` through a pointer. -/
def EventLoop.Time (el : EventLoop) (e : EventId) : timeval :=
  (el.heap e).time_

/-- The accessor `TimerEvent::SetTime(tv)` through a pointer. -/
def EventLoop.SetTime (el : EventLoop) (e : EventId) (tv : timeval) : EventLoop :=
  { el with heap := fun i => if i = e then { el.heap e with time_ := tv } else el.heap i }

/-- Assignment to `running_` through a pointer. -/
def EventLoop.SetRunning (el : EventLoop) (e : EventId) (b : Bool) : EventLoop :=
  { el with heap := fun i => if i = e then { el.heap e with running_ := b } else el.heap i }

/-- Assignment `e->el_ = this`. -/
def EventLoop.Bind (el : EventLoop) (e : EventId) : EventLoop :=
  { el with heap := fun i => if i = e then { el.heap e with el_ := true } else el.heap i }

/-! ## TimerManager -/

/-- The comparison `TimerManager::Compare::operator()` on two deadlines. -/
def Compare (t1 t2 : timeval) : Bool :=
  decide (t1.tv_sec < t2.tv_sec) || (decide (t1.tv_sec = t2.tv_sec) && decide (t1.tv_usec < t2.tv_usec))

/-- The operation `std::set::insert` on the ordered sequence: walk to the
first element not less than `e`; if `e` is not less than it either, the two
are equivalent and nothing is inserted (`second` is false), otherwise `e` goes
in front of it. On a sequence that is ordered by `Compare` this is the
container's behaviour; the container promises nothing for a sequence whose
order was broken by changing a deadline in place. -/
def TimerSet.insert (time : EventId → timeval) (e : EventId) :
    List EventId → List EventId × Bool
  | [] => ([e], true)
  | x :: xs =>
    if Compare (time x) (time e) then
      ((x :: (TimerSet.insert time e xs).1), (TimerSet.insert time e xs).2)
    else if Compare (time e) (time x) then (e :: x :: xs, true)
    else (x :: xs, false)

/-- The operation `std::set::erase(key)` on the ordered sequence: removes the element
equivalent to `e` under `Compare`, if there is one, and returns the number of
elements removed. -/
def TimerSet.erase (time : EventId → timeval) (e : EventId) :
    List EventId → List EventId × Nat
  | [] => ([], 0)
  | x :: xs =>
    if Compare (time x) (time e) then
      ((x :: (TimerSet.erase time e xs).1), (TimerSet.erase time e xs).2)
    else if Compare (time e) (time x) then (x :: xs, 0)
    else (xs, 1)

/-- The function `int TimerManager::AddEvent(TimerEvent *e)`, which is also
`EventLoop::AddEvent(TimerEvent *)`: `!timers_.insert(e).second`. -/
def EventLoop.AddEvent (el : EventLoop) (e : EventId) : EventLoop × Int :=
  let r := TimerSet.insert el.Time e el.timers_
  ({ el with timers_ := r.1 }, if r.2 then 0 else 1)

/-- The function `int TimerManager::DeleteEvent(TimerEvent *e)`: `timers_.erase(e) != 1`. -/
def EventLoop.DeleteEvent (el : EventLoop) (e : EventId) : EventLoop × Int :=
  let r := TimerSet.erase el.Time e el.timers_
  ({ el with timers_ := r.1 }, if r.2 ≠ 1 then 1 else 0)

/-- The function `int TimerManager::UpdateEvent(TimerEvent *e)`: erase, then insert. -/
def EventLoop.UpdateEvent (el : EventLoop) (e : EventId) : EventLoop × Int :=
  let erased := (TimerSet.erase el.Time e el.timers_).1
  let r := TimerSet.insert el.Time e erased
  ({ el with timers_ := r.1 }, if r.2 then 0 else 1)

/-! ## PeriodicTimerEvent -/

/-- A virtual callback of a timer object: a function of the object's address
on the loop state. -/
abbrev Handler := EventId → EventLoop → EventLoop

/-- The function `void PeriodicTimerEvent::OnEvents(uint32_t events)`: run `OnTimer`, set
the deadline to `Now() + interval_`, and `UpdateEvent(this)`. -/
def PeriodicTimerEvent.OnEvents (OnTimer : Handler) (self : EventId)
    (el : EventLoop) : EventLoop :=
  let el1 := OnTimer self el
  let el2 := el1.SetTime self (TimeAdd el1.now_ (el1.heap self).interval_)
  (el2.UpdateEvent self).1

/-- The function `void PeriodicTimerEvent::Start()`; `tv` is what `gettimeofday` returns. -/
def PeriodicTimerEvent.Start (self : EventId) (tv : timeval) (el : EventLoop) : EventLoop :=
  if (el.heap self).el_ then
    (((el.SetRunning self true).SetTime self tv).AddEvent self).1
  else el

/-- The function `void PeriodicTimerEvent::Stop()`. -/
def PeriodicTimerEvent.Stop (self : EventId) (el : EventLoop) : EventLoop :=
  if (el.heap self).el_ then
    ((el.SetRunning self false).DeleteEvent self).1
  else el

/-- The function `int EventLoop::AddEvent(PeriodicTimerEvent *e)`. -/
def EventLoop.AddPeriodicTimerEvent (el : EventLoop) (e : EventId) : EventLoop × Int :=
  (((el.AddEvent e).1).Bind e, 0)

/-! ## EventLoop::DoTimeout and the poll timeout -/

/-- One callback invocation made by `DoTimeout`: the event, the mask passed to
`OnEvents`, and the deadline `tv` read from the event before it was erased. -/
structure Fired where
  event : EventId
  events : Nat
  time : timeval
deriving DecidableEq

/-- What a run of `DoTimeout` produced: the counter `n`, the callbacks invoked
in order, the loop state, and whether the `while` loop has been left. -/
structure Drain where
  n : Int
  fired : List Fired
  loop : EventLoop
  finished : Bool

/-- The function `int EventLoop::DoTimeout()`, the `while` loop run for at most `fuel`
iterations; `OnEvents` is the virtual dispatch `e->OnEvents(...)`. -/
def EventLoop.DoTimeout (OnEvents : Handler) : Nat → EventLoop → Drain
  | 0, el => { n := 0, fired := [], loop := el, finished := false }
  | fuel + 1, el =>
    match el.timers_ with
    | [] => { n := 0, fired := [], loop := el, finished := true }
    | ite :: rest =>
      let tv := el.Time ite
      if TimeDiff el.now_ tv < 0 then
        { n := 0, fired := [], loop := el, finished := true }
      else
        let r := EventLoop.DoTimeout OnEvents fuel (OnEvents ite { el with timers_ := rest })
        { n := r.n + 1, fired := ⟨ite, TIMER, tv⟩ :: r.fired, loop := r.loop,
          finished := r.finished }

/-- The value of the local `timeout` that `StartLoop` passes to
`ProcessEvents`, computed at the top of an iteration from `now_` and the first
element of `timers_`. -/
def StartLoop.timeout (el : EventLoop) : Int :=
  match el.timers_ with
  | [] => 100
  | ite :: _ =>
    let t := TimeDiff (el.Time ite) el.now_
    if t > 0 ∧ 100 > t then t else 100

/-! ## BufferIOEvent -/

/-- The contents of a `std::string`. -/
abbrev Bytes := List Char

/-- The constant `IOEvent::READ`. -/
def READ : Nat := 1

/-- The constant `IOEvent::WRITE`. -/
def WRITE : Nat := 2

/-- The constant `IOEvent::ERROR`. -/
def ERROR : Nat := 4

/-- Modelled from the spec: the class declaration of `BufferIOEvent` is not
among the sources (the header at hand declares an older `BufferFileEvent`), so
the record holds the members `eventloop.cc` uses, typed as the StreamEvent of
the data model: the interest mask `events_` (uint32), the accumulation buffer
`recvbuf_`, the target receive length `torecv_` (uint32), the send queue
`sendbuf_list_` and the partial-sent offset `sent_` (uint32) into its head. -/
structure BufferIOEvent where
  events_ : Nat
  recvbuf_ : Bytes
  torecv_ : Nat
  sendbuf_list_ : List Bytes
  sent_ : Nat
deriving DecidableEq

/-- An effect of a `BufferIOEvent` method that is visible outside the object:
a user callback, the re-registration `el_->UpdateEvent(this)` with the mask
then in `events_`, or bytes accepted by the descriptor in one `write`. -/
inductive Call where
  | OnReceived (data : Bytes)
  | OnSent (data : Bytes)
  | OnClosed
  | OnError
  | UpdateEvent (events : Nat)
  | Written (data : Bytes)
deriving DecidableEq

/-- What `ReceiveData` leaves behind: its return value, the out-parameter
`rtn_data`, and the object. -/
structure Received where
  ret : Int
  rtn_data : Bytes
  self : BufferIOEvent
deriving DecidableEq

/-- The function `int BufferIOEvent::ReceiveData(string& rtn_data)`; `len` is what `read`
returned and `buffer` the bytes it stored. -/
def BufferIOEvent.ReceiveData (self : BufferIOEvent) (rtn_data : Bytes) (len : Int)
    (buffer : Bytes) : Received :=
  if len ≤ 0 then { ret := len, rtn_data := rtn_data, self := self }
  else
    let recvbuf := self.recvbuf_ ++ buffer.take len.toNat
    if recvbuf.length ≥ self.torecv_ then
      if self.torecv_ > 0 then
        let rtn := recvbuf.take self.torecv_
        let rest := recvbuf.drop self.torecv_
        { ret := toInt32 (if rtn ≠ [] then rtn.length else rest.length),
          rtn_data := rtn, self := { self with recvbuf_ := rest } }
      else
        { ret := toInt32 (if recvbuf ≠ [] then recvbuf.length else 0),
          rtn_data := recvbuf, self := { self with recvbuf_ := [] } }
    else
      { ret := toInt32 (if rtn_data ≠ [] then rtn_data.length else recvbuf.length),
        rtn_data := rtn_data, self := { self with recvbuf_ := recvbuf } }

/-- The descriptor as the write path sees it: the outcome of the `i`-th call
of `write`, either failure (`none`, the call returns -1) or the number of
bytes the descriptor can take at that moment. -/
abbrev Writes := Nat → Option Nat

/-- What `SendData` leaves behind: its return value, the object, the number
of `write` calls made so far, and the visible effects in order. -/
structure Sent where
  ret : Int
  self : BufferIOEvent
  writes : Nat
  calls : List Call
deriving DecidableEq

/-- The `while` loop of `BufferIOEvent::SendData` over the queue, with the
members `sent_` and `events_`, the local `total_sent` and the count of `write`
calls as loop variables; unsigned 32-bit arithmetic is taken modulo 2^32. -/
def SendData.loop (env : Writes) (torecv_ : Nat) (recvbuf_ : Bytes) :
    List Bytes → Nat → Nat → Nat → Nat → Sent
  | [], sent_, events_, total_sent, k =>
    { ret := toInt32 total_sent,
      self := ⟨events_, recvbuf_, torecv_, [], sent_⟩, writes := k, calls := [] }
  | sendbuf :: rest, sent_, events_, total_sent, k =>
    let tosend := sendbuf.length % 4294967296
    let count := (tosend + 4294967296 - sent_) % 4294967296
    match env k with
    | none =>
      { ret := -1, self := ⟨events_, recvbuf_, torecv_, sendbuf :: rest, sent_⟩,
        writes := k + 1, calls := [] }
    | some room =>
      let len := min room count
      let sent1 := (sent_ + len) % 4294967296
      let total1 := (total_sent + sent1) % 4294967296
      let written := Call.Written ((sendbuf.drop sent_).take len)
      if sent1 = tosend then
        let events1 := events_ &&& 4294967293
        let r := SendData.loop env torecv_ recvbuf_ rest 0 events1 total1 (k + 1)
        { r with calls := written :: Call.UpdateEvent events1 :: Call.OnSent sendbuf :: r.calls }
      else
        { ret := toInt32 total1,
          self := ⟨events_, recvbuf_, torecv_, sendbuf :: rest, sent1⟩,
          writes := k + 1, calls := [written] }

/-- The function `int BufferIOEvent::SendData()`; `k` counts the `write` calls made before. -/
def BufferIOEvent.SendData (env : Writes) (self : BufferIOEvent) (k : Nat) : Sent :=
  SendData.loop env self.torecv_ self.recvbuf_ self.sendbuf_list_ self.sent_ self.events_ 0 k

/-- The function `void BufferIOEvent::Send(const string& buffer)`. -/
def BufferIOEvent.Send (self : BufferIOEvent) (buffer : Bytes) : BufferIOEvent × List Call :=
  let queued := { self with sendbuf_list_ := self.sendbuf_list_ ++ [buffer] }
  if queued.events_ &&& WRITE = 0 then
    ({ queued with events_ := queued.events_ ||| WRITE },
      [Call.UpdateEvent (queued.events_ ||| WRITE)])
  else (queued, [])

/-- The function `void BufferIOEvent::SetReceiveLen(uint32_t len)`. -/
def BufferIOEvent.SetReceiveLen (self : BufferIOEvent) (len : Nat) : BufferIOEvent :=
  { self with torecv_ := len % 4294967296 }

/-- What a call of `OnEvents` leaves behind: the object, the number of `write`
calls made so far, and the visible effects in order. -/
structure Handled where
  self : BufferIOEvent
  writes : Nat
  calls : List Call
deriving DecidableEq

/-- The `while (!sendbuf_list_.empty())` loop in the WRITE branch of
`OnEvents`, run for at most `fuel` calls of `SendData`; the flag of the result
says whether the loop ended in the error `return`. `none`: the loop is still
running when the fuel is spent. -/
def OnEvents.writeLoop (env : Writes) : Nat → BufferIOEvent → Nat → Option (Bool × Handled)
  | 0, self, k =>
    if self.sendbuf_list_ = [] then some (false, ⟨self, k, []⟩) else none
  | fuel + 1, self, k =>
    if self.sendbuf_list_ = [] then some (false, ⟨self, k, []⟩)
    else
      let r := self.SendData env k
      if r.ret < 0 then some (true, ⟨r.self, r.writes, r.calls ++ [Call.OnError]⟩)
      else
        match OnEvents.writeLoop env fuel r.self r.writes with
        | none => none
        | some (failed, h) => some (failed, ⟨h.self, h.writes, r.calls ++ h.calls⟩)

/-- The ERROR branch at the end of `BufferIOEvent::OnEvents`. -/
def OnEvents.errorBranch (events : Nat) (h : Handled) : Handled :=
  if events &&& ERROR ≠ 0 then ⟨h.self, h.writes, h.calls ++ [Call.OnError]⟩ else h

/-- The WRITE branch of `BufferIOEvent::OnEvents` and what follows it; `h` is
the state the READ branch left. -/
def OnEvents.writeBranch (env : Writes) (fuel : Nat) (events : Nat) (h : Handled) :
    Option Handled :=
  if events &&& WRITE ≠ 0 then
    match OnEvents.writeLoop env fuel h.self h.writes with
    | none => none
    | some (true, h2) => some ⟨h2.self, h2.writes, h.calls ++ h2.calls⟩
    | some (false, h2) =>
      some (OnEvents.errorBranch events ⟨h2.self, h2.writes, h.calls ++ h2.calls⟩)
  else some (OnEvents.errorBranch events h)

/-- The function `void BufferIOEvent::OnEvents(uint32_t events)`; `len` and `buffer` are the
outcome of the `read` that `ReceiveData` performs when the READ bit is set,
`env` the outcomes of the `write` calls, `k` the number of those made before.
`none`: the write loop is still running when the fuel is spent. -/
def BufferIOEvent.OnEvents (env : Writes) (fuel : Nat) (self : BufferIOEvent) (events : Nat)
    (len : Int) (buffer : Bytes) (k : Nat) : Option Handled :=
  if events &&& READ ≠ 0 then
    let r := self.ReceiveData [] len buffer
    if r.ret < 0 then some ⟨r.self, k, [Call.OnError]⟩
    else if r.ret = 0 then some ⟨r.self, k, [Call.OnClosed]⟩
    else
      OnEvents.writeBranch env fuel events
        ⟨r.self, k, if r.rtn_data ≠ [] then [Call.OnReceived r.rtn_data] else []⟩
  else OnEvents.writeBranch env fuel events ⟨self, k, []⟩

/-- Calls of `Send` called for each buffer of a list in turn, with no write processing
in between; the effects of the calls are collected in order. -/
def BufferIOEvent.SendAll (self : BufferIOEvent) : List Bytes → BufferIOEvent × List Call
  | [] => (self, [])
  | b :: bs => ((BufferIOEvent.SendAll (self.Send b).1 bs).1,
      (self.Send b).2 ++ (BufferIOEvent.SendAll (self.Send b).1 bs).2)

/-- The bytes a `Call` hands to the descriptor. -/
def Call.accepted : Call → Bytes
  | Call.Written data => data
  | _ => []

/-- The buffer a `Call` reports as sent. -/
def Call.reported : Call → List Bytes
  | Call.OnSent data => [data]
  | _ => []

/-- The bytes accepted by the descriptor in the course of a trace, in order. -/
def written (calls : List Call) : Bytes :=
  (calls.map Call.accepted).flatten

/-- The buffers reported by `OnSent` in the course of a trace, in order. -/
def onSent (calls : List Call) : List Bytes :=
  (calls.map Call.reported).flatten

/-- An operation on the send side of a `BufferIOEvent`: a call of `Send`, or
a call of `SendData`. -/
inductive Op where
  | Send (buffer : Bytes)
  | SendData
deriving DecidableEq

/-- A `BufferIOEvent` together with the number of `write` calls made on its
descriptor and the trace of visible effects so far. -/
structure Session where
  self : BufferIOEvent
  writes : Nat
  calls : List Call
deriving DecidableEq

/-- One operation performed on a session. -/
def Session.step (env : Writes) (s : Session) : Op → Session
  | Op.Send b => ⟨(s.self.Send b).1, s.writes, s.calls ++ (s.self.Send b).2⟩
  | Op.SendData =>
    ⟨(s.self.SendData env s.writes).self, (s.self.SendData env s.writes).writes,
      s.calls ++ (s.self.SendData env s.writes).calls⟩

/-- A sequence of operations performed on a session. -/
def Session.run (env : Writes) (s : Session) (ops : List Op) : Session :=
  ops.foldl (Session.step env) s

/-- A freshly constructed `BufferIOEvent`: empty buffers, offset 0. -/
def BufferIOEvent.fresh (events torecv : Nat) : BufferIOEvent :=
  { events_ := events, recvbuf_ := [], torecv_ := torecv, sendbuf_list_ := [], sent_ := 0 }

/-- A descriptor on which every `write` fails. -/
def neverWritable : Writes := fun _ => none

/-- A descriptor that takes 2 bytes at the first `write`, 1 byte at the
second, and fails afterwards. -/
def twoThenOne : Writes := fun i => [some 2, some 1].getD i none

/-- An event with READ, WRITE and ERROR interest and the two buffers "ab" and
"cd" queued, nothing sent yet. -/
def twoQueued : BufferIOEvent :=
  { events_ := 7, recvbuf_ := [], torecv_ := 0,
    sendbuf_list_ := ['a', 'b'] :: ['c', 'd'] :: [], sent_ := 0 }

/-- The send queue and offset are consistent: every queued buffer is shorter
than 2^32 bytes, and the offset `sent_` does not exceed the length of the
head buffer (it is 0 when the queue is empty). -/
def sendOK (queue : List Bytes) (sent_ : Nat) : Prop :=
  (∀ b ∈ queue, b.length < 4294967296) ∧ sent_ ≤ (queue.headD []).length

instance sendOK.decide (queue : List Bytes) (sent_ : Nat) : Decidable (sendOK queue sent_) := by
  unfold sendOK; infer_instance

/-- The work left on the send side: the bytes still to be written plus one
per queued buffer. -/
def pending (queue : List Bytes) (sent_ : Nat) : Nat :=
  (queue.map (fun b => b.length + 1)).sum - sent_

/-- A descriptor that is ready for reading together with ERROR: the mask
READ | ERROR. -/
def readAndError : Nat := READ ||| ERROR

/-! ## Concrete inputs -/

/-- A timer object with deadline `t` and interval `i`, bound to the loop and
not running. -/
def timerAt (t i : timeval) : TimerEvent :=
  { time_ := t, interval_ := i, running_ := false, el_ := true }

/-- A callback that does nothing. -/
def noCallback : Handler := fun _ el => el

/-- The `OnTimer` of `TcpClient::ReconnectTimer` once the connection is up:
it calls `Stop()` on the timer that is being fired. -/
def stopInOnTimer : Handler := fun self el => PeriodicTimerEvent.Stop self el

/-- A loop at time 10 s holding no timer; the object at address 0 is a bound
periodic timer of interval 1 s. -/
def loopWithPeriodic : EventLoop :=
  { now_ := ⟨10, 0⟩, stop_ := false, timers_ := [],
    heap := fun _ => timerAt ⟨0, 0⟩ ⟨1, 0⟩ }

/-- A loop at time `now` whose registry holds the one timer 0, of deadline `t`. -/
def loopWithTimer (now t : timeval) : EventLoop :=
  { now_ := now, stop_ := false, timers_ := [0], heap := fun _ => timerAt t ⟨1, 0⟩ }

/-- A loop with an empty registry in which the objects 0 and 1 both have the
deadline 5 s. -/
def loopTwoEqual : EventLoop :=
  { now_ := ⟨0, 0⟩, stop_ := false, timers_ := [], heap := fun _ => timerAt ⟨5, 0⟩ ⟨1, 0⟩ }

/-- The deadline `tv` lies within 2147482 seconds of `now`, so that their
difference in milliseconds fits the `int` that `TimeDiff` returns. -/
def timeval.near (tv now : timeval) : Prop :=
  -2147482 ≤ tv.tv_sec - now.tv_sec ∧ tv.tv_sec - now.tv_sec ≤ 2147482

instance timeval.decNear (tv now : timeval) : Decidable (tv.near now) := by
  unfold timeval.near; infer_instance

/-- The poll timeout as the specification words it: `min(100, max(0, d))` for
`d` the milliseconds from now until the earliest deadline, 100 when the
registry is empty. -/
def specTimeout (el : EventLoop) : Int :=
  match el.timers_ with
  | [] => 100
  | ite :: _ => min 100 (max 0 (TimeDiff (el.Time ite) el.now_))

/-! ## The drain pass: auxiliary notions -/

/-- The registry is in the order of the container: each event's deadline is
strictly less, under `Compare`, than the deadline of every event after it. -/
def TimerSet.ordered (time : EventId → timeval) (l : List EventId) : Prop :=
  l.Pairwise (fun a b => Compare (time a) (time b) = true)

/-- The test of `DoTimeout` on the head of the registry: the timer is fired
unless `TimeDiff(now_, tv) < 0`. -/
def EventLoop.due (el : EventLoop) (e : EventId) : Bool :=
  decide (¬ TimeDiff el.now_ (el.Time e) < 0)

/-- The entry of the trace of `DoTimeout` for the event `e` of the loop `el`. -/
def EventLoop.firing (el : EventLoop) (e : EventId) : Fired :=
  { event := e, events := TIMER, time := el.Time e }

/-- A callback that leaves the registry, the deadlines and `now_` as they
are. -/
def Handler.keepsTimers (h : Handler) : Prop :=
  ∀ e w, (h e w).timers_ = w.timers_ ∧ (h e w).now_ = w.now_ ∧ (h e w).Time = w.Time

/-- A callback that, run for an event that is not in the registry, leaves the
registry in the order of the container. -/
def Handler.keepsOrder (h : Handler) : Prop :=
  ∀ e w, e ∉ w.timers_ → TimerSet.ordered w.Time w.timers_ →
    TimerSet.ordered (h e w).Time (h e w).timers_

/-- The callbacks of a run of `DoTimeout` each with the registry as the
callback finds it when it is entered; the run is that of `DoTimeout`, the
trace keeps the registry instead of the deadline. -/
def DoTimeout.entered (OnEvents : Handler) : Nat → EventLoop → List (EventId × List EventId)
  | 0, _ => []
  | fuel + 1, el =>
    match el.timers_ with
    | [] => []
    | ite :: rest =>
      if TimeDiff el.now_ (el.Time ite) < 0 then []
      else (ite, rest) :: DoTimeout.entered OnEvents fuel (OnEvents ite { el with timers_ := rest })

/-- A sequence of `AddEvent` calls, one for each event of the list in turn. -/
def EventLoop.AddAll (el : EventLoop) (es : List EventId) : EventLoop :=
  es.foldl (fun w e => (w.AddEvent e).1) el

/-- A loop at time 9 s whose registry holds the timer 0 of deadline 5 s; the
object 1 has the same deadline and is not in the registry. -/
def loopOneOfTwoEqual : EventLoop :=
  { now_ := ⟨9, 0⟩, stop_ := false, timers_ := [0], heap := fun _ => timerAt ⟨5, 0⟩ ⟨1, 0⟩ }

/-- A loop at time `now` with an empty registry, in which the object at
address `i` has deadline `i` seconds and interval 1 s. -/
def loopBySeconds (now : timeval) : EventLoop :=
  { now_ := now, stop_ := false, timers_ := [],
    heap := fun i => timerAt ⟨(i : Int), 0⟩ ⟨1, 0⟩ }

instance TimerSet.decOrdered (time : EventId → timeval) (l : List EventId) :
    Decidable (TimerSet.ordered time l) := by
  unfold TimerSet.ordered; infer_instance

/-! ## EventLoop::ProcessEvents and StartLoop -/

/-- The constant `EPOLLIN` of `sys/epoll.h`. -/
def EPOLLIN : Nat := 1

/-- The constant `EPOLLOUT` of `sys/epoll.h`. -/
def EPOLLOUT : Nat := 4

/-- The constant `EPOLLERR` of `sys/epoll.h`. -/
def EPOLLERR : Nat := 8

/-- The constant `EPOLLHUP` of `sys/epoll.h`. -/
def EPOLLHUP : Nat := 16

/-- The C `struct epoll_event` as the loop uses it: the ready mask `events`
and the event object `data.ptr` points to. -/
structure epoll_event where
  events : Nat
  ptr : EventId
deriving DecidableEq

/-- The virtual `OnEvents` of a file event: a function of the object's
address and the mask on the loop state. -/
abbrev IOHandler := EventId → Nat → EventLoop → EventLoop

/-- The mask that `ProcessEvents` computes from `evs_[i].events`. -/
def ProcessEvents.mask (events : Nat) : Nat :=
  ((if events &&& EPOLLIN ≠ 0 then READ else 0)
    ||| (if events &&& EPOLLOUT ≠ 0 then WRITE else 0))
    ||| (if events &&& (EPOLLHUP ||| EPOLLERR) ≠ 0 then ERROR else 0)

/-- The `for` loop of `ProcessEvents` over the ready entries of `evs_`: each
callback is invoked with the translated mask; the result is the list of the
invocations and the loop state. -/
def ProcessEvents.dispatch (OnEvents : IOHandler) :
    List epoll_event → EventLoop → List (EventId × Nat) × EventLoop
  | [], el => ([], el)
  | ev :: evs, el =>
    ((ev.ptr, ProcessEvents.mask ev.events)
        :: (ProcessEvents.dispatch OnEvents evs
              (OnEvents ev.ptr (ProcessEvents.mask ev.events) el)).1,
      (ProcessEvents.dispatch OnEvents evs
        (OnEvents ev.ptr (ProcessEvents.mask ev.events) el)).2)

/-- What a call of `ProcessEvents` produced: its return value, the timer
callbacks and the file-event callbacks it invoked, the loop state, and
whether it has returned (it has not when the drain is still running). -/
structure Processed where
  ret : Int
  fired : List Fired
  dispatched : List (EventId × Nat)
  loop : EventLoop
  finished : Bool

/-- The function `int EventLoop::ProcessEvents(int timeout)`. The outcome of
`CollectFileEvents(timeout)`, that is of `epoll_wait`, is an input: its return
value `n` and the entries `evs` it stored in `evs_`; `tv` is what
`gettimeofday` returns; `fuel` bounds the iterations of the drain. -/
def EventLoop.ProcessEvents (OnTimerEvents : Handler) (OnFileEvents : IOHandler) (fuel : Nat)
    (el : EventLoop) (n : Int) (evs : List epoll_event) (tv : timeval) : Processed :=
  let d := EventLoop.DoTimeout OnTimerEvents fuel { el with now_ := tv }
  if d.finished then
    { ret := d.n + n, fired := d.fired,
      dispatched := (ProcessEvents.dispatch OnFileEvents (evs.take n.toNat) d.loop).1,
      loop := (ProcessEvents.dispatch OnFileEvents (evs.take n.toNat) d.loop).2,
      finished := true }
  else
    { ret := d.n + n, fired := d.fired, dispatched := [], loop := d.loop, finished := false }

/-- What the environment supplies to one iteration of `StartLoop`: the time
`top` read at the top of the iteration, the outcome `n`, `evs` of the poll,
and the time `now` read after the poll. -/
structure Tick where
  top : timeval
  n : Int
  evs : List epoll_event
  now : timeval
deriving DecidableEq

/-- What a run of `StartLoop` produced: the timeout of every poll made, the
timer callbacks and file-event callbacks invoked, the loop state, and whether
`StartLoop` has returned. -/
structure Ran where
  polls : List Int
  fired : List Fired
  dispatched : List (EventId × Nat)
  loop : EventLoop
  returned : Bool

/-- The `while (!stop_)` loop of `StartLoop`, one iteration for each `Tick`
the environment supplies. -/
def StartLoop.iterate (OnTimerEvents : Handler) (OnFileEvents : IOHandler) (fuel : Nat) :
    List Tick → EventLoop → Ran
  | [], el => { polls := [], fired := [], dispatched := [], loop := el, returned := el.stop_ }
  | t :: ts, el =>
    if el.stop_ then
      { polls := [], fired := [], dispatched := [], loop := el, returned := true }
    else
      let p := EventLoop.ProcessEvents OnTimerEvents OnFileEvents fuel { el with now_ := t.top }
        t.n t.evs t.now
      if p.finished then
        { polls := StartLoop.timeout { el with now_ := t.top }
            :: (StartLoop.iterate OnTimerEvents OnFileEvents fuel ts p.loop).polls,
          fired := p.fired ++ (StartLoop.iterate OnTimerEvents OnFileEvents fuel ts p.loop).fired,
          dispatched := p.dispatched
            ++ (StartLoop.iterate OnTimerEvents OnFileEvents fuel ts p.loop).dispatched,
          loop := (StartLoop.iterate OnTimerEvents OnFileEvents fuel ts p.loop).loop,
          returned := (StartLoop.iterate OnTimerEvents OnFileEvents fuel ts p.loop).returned }
      else
        { polls := [StartLoop.timeout { el with now_ := t.top }], fired := p.fired,
          dispatched := p.dispatched, loop := p.loop, returned := false }

/-- The function `void EventLoop::StartLoop()`. -/
def EventLoop.StartLoop (OnTimerEvents : Handler) (OnFileEvents : IOHandler) (fuel : Nat)
    (el : EventLoop) (ticks : List Tick) : Ran :=
  StartLoop.iterate OnTimerEvents OnFileEvents fuel ticks { el with stop_ := false }

/-! ## The registration overloads -/

/-- The mask that `AddEvent(IOEvent *)` and `UpdateEvent(IOEvent *)` hand to
`epoll_ctl` for the interest mask `events`. -/
def EventLoop.epollMask (events : Nat) : Nat :=
  ((if events &&& READ ≠ 0 then EPOLLIN else 0)
    ||| (if events &&& WRITE ≠ 0 then EPOLLOUT else 0))
    ||| (if events &&& ERROR ≠ 0 then EPOLLHUP ||| EPOLLERR else 0)

/-- The function `int EventLoop::AddEvent(IOEvent *e)`: the mask registered
and the return value, which is what `epoll_ctl(EPOLL_CTL_ADD)` returned;
`ctl` is that result. -/
def EventLoop.AddIOEvent (events : Nat) (ctl : Int) : Nat × Int :=
  (EventLoop.epollMask events, ctl)

/-- The function `int EventLoop::AddEvent(BufferIOEvent *e)`: it calls
`AddEvent(IOEvent *)`, sets `e->el_` and returns 0. The result is whether
`el_` is set, and the return value. -/
def EventLoop.AddBufferIOEvent (events : Nat) (ctl : Int) : Bool × Int :=
  let _registered := EventLoop.AddIOEvent events ctl
  (true, 0)

/-! ## SignalManager -/

/-- The operation `insert` of a `std::set<SignalEvent *>`, kept as the list
of its addresses in ascending order. -/
def PtrSet.insert (e : EventId) (l : List EventId) : List EventId :=
  if e ∈ l then l else l.orderedInsert (fun a b => a ≤ b) e

/-- The operation `erase(key)` of a `std::set<SignalEvent *>`. -/
def PtrSet.erase (e : EventId) (l : List EventId) : List EventId :=
  l.erase e

/-- The member `sig_events_` of `SignalManager`: for each signal number the
set of the events registered for it. -/
structure SignalManager where
  sig_events_ : Int → List EventId

/-- The `SignalManager` as `Instance()` creates it. -/
def SignalManager.empty : SignalManager :=
  { sig_events_ := fun _ => [] }

/-- The function `int SignalManager::AddEvent(SignalEvent *e)`; `Signal`
gives `e->Signal()`. -/
def SignalManager.AddEvent (Signal : EventId → Int) (m : SignalManager) (e : EventId) :
    SignalManager × Int :=
  ({ sig_events_ := fun s =>
      if s = Signal e then PtrSet.insert e (m.sig_events_ s) else m.sig_events_ s }, 0)

/-- The function `int SignalManager::DeleteEvent(SignalEvent *e)`. -/
def SignalManager.DeleteEvent (Signal : EventId → Int) (m : SignalManager) (e : EventId) :
    SignalManager × Int :=
  ({ sig_events_ := fun s =>
      if s = Signal e then PtrSet.erase e (m.sig_events_ s) else m.sig_events_ s }, 0)

/-- The function `int SignalManager::UpdateEvent(SignalEvent *e)`. -/
def SignalManager.UpdateEvent (Signal : EventId → Int) (m : SignalManager) (e : EventId) :
    SignalManager × Int :=
  ({ sig_events_ := fun s =>
      if s = Signal e then PtrSet.insert e (PtrSet.erase e (m.sig_events_ s))
      else m.sig_events_ s }, 0)

/-- The function `void SignalHandler(int signo)`: the callbacks invoked, each
with the argument it is passed. -/
def SignalHandler (m : SignalManager) (signo : Int) : List (EventId × Int) :=
  (m.sig_events_ signo).map (fun e => (e, signo))

/-- A call of one of the three registration functions of `SignalManager`. -/
inductive SigOp where
  | Add (e : EventId)
  | Delete (e : EventId)
  | Update (e : EventId)
deriving DecidableEq

/-- One registration call performed on the `SignalManager`. -/
def SignalManager.step (Signal : EventId → Int) (m : SignalManager) : SigOp → SignalManager
  | SigOp.Add e => (m.AddEvent Signal e).1
  | SigOp.Delete e => (m.DeleteEvent Signal e).1
  | SigOp.Update e => (m.UpdateEvent Signal e).1

/-- A sequence of registration calls performed on the `SignalManager`. -/
def SignalManager.run (Signal : EventId → Int) (m : SignalManager) (ops : List SigOp) :
    SignalManager :=
  ops.foldl (SignalManager.step Signal) m

/-- The effect of one registration call on which events count as registered:
`AddEvent` and `UpdateEvent` register their event, `DeleteEvent` unregisters
it. -/
def SigOp.register (r : EventId → Bool) : SigOp → EventId → Bool
  | SigOp.Add e => fun x => if x = e then true else r x
  | SigOp.Delete e => fun x => if x = e then false else r x
  | SigOp.Update e => fun x => if x = e then true else r x

/-- The events registered after a sequence of registration calls, none being
registered at the start. -/
def registeredAfter (ops : List SigOp) : EventId → Bool :=
  ops.foldl SigOp.register (fun _ => false)

/-- A file-event callback that does nothing. -/
def noFileCallback : IOHandler := fun _ _ el => el

/-- An event with READ, WRITE and ERROR interest and the one buffer "ab"
queued, nothing sent yet. -/
def oneQueued : BufferIOEvent :=
  { events_ := 7, recvbuf_ := [], torecv_ := 0, sendbuf_list_ := [['a', 'b']], sent_ := 0 }

/-- A descriptor that takes one byte at every `write`. -/
def oneByOne : Writes := fun _ => some 1

/-! ## The receive side over many reads -/

/-- An operation on the receive side of a `BufferIOEvent`: a call of
`ReceiveData` whose `read` returns the bytes `data` (their number as the
result), or a call of `SetReceiveLen`. -/
inductive RecvOp where
  | Read (data : Bytes)
  | SetReceiveLen (len : Nat)
deriving DecidableEq

/-- The bytes read by a sequence of operations, in order. -/
def readBytes : List RecvOp → Bytes
  | [] => []
  | RecvOp.Read data :: ops => data ++ readBytes ops
  | RecvOp.SetReceiveLen _ :: ops => readBytes ops

/-- The number of reads in a sequence of operations. -/
def readCount : List RecvOp → Nat
  | [] => 0
  | RecvOp.Read _ :: ops => readCount ops + 1
  | RecvOp.SetReceiveLen _ :: ops => readCount ops

/-- A `BufferIOEvent` together with the byte strings that `ReceiveData` has
delivered through `rtn_data` so far, in order. -/
structure RecvSession where
  self : BufferIOEvent
  delivered : List Bytes
deriving DecidableEq

/-- What a call of `ReceiveData` delivers: the string left in `rtn_data`
(which the caller passed in empty) when it is not empty. -/
def Received.delivery (r : Received) : List Bytes :=
  if r.rtn_data ≠ [] then [r.rtn_data] else []

/-- One operation performed on the receive side. -/
def RecvSession.step (s : RecvSession) : RecvOp → RecvSession
  | RecvOp.Read data =>
    { self := (s.self.ReceiveData [] data.length data).self,
      delivered := s.delivered ++ (s.self.ReceiveData [] data.length data).delivery }
  | RecvOp.SetReceiveLen len => { self := s.self.SetReceiveLen len, delivered := s.delivered }

/-- A sequence of operations performed on the receive side. -/
def RecvSession.run (s : RecvSession) (ops : List RecvOp) : RecvSession :=
  ops.foldl RecvSession.step s

/-! ## Periodic timers in the drain pass -/

/-- A callback that leaves the registry, the timer objects and `now_` as they
are. -/
def Handler.keepsHeap (h : Handler) : Prop :=
  ∀ e w, (h e w).timers_ = w.timers_ ∧ (h e w).now_ = w.now_ ∧ (h e w).heap = w.heap

/-- An interval of at least one millisecond: normalised, with between 0 and
2147481 seconds, and 1000 microseconds or more in all. -/
def timeval.millisecondOrMore (tv : timeval) : Prop :=
  tv.normalised ∧ 0 ≤ tv.tv_sec ∧ tv.tv_sec ≤ 2147481 ∧ 1000 ≤ tv.usecs

instance timeval.decMillisecondOrMore (tv : timeval) : Decidable tv.millisecondOrMore := by
  unfold timeval.millisecondOrMore; infer_instance

/-- A loop at time 5 s with an empty registry; its timer objects have the
deadline 5 s + 100 microseconds and the interval 50 microseconds. -/
def loopRearmEarlier : EventLoop :=
  { now_ := ⟨5, 0⟩, stop_ := false, timers_ := [],
    heap := fun _ => timerAt ⟨5, 100⟩ ⟨0, 50⟩ }

/-- A timer callback in which the timer 3 schedules the timer 1 and the other
timers do nothing. -/
def scheduleTimer1 : Handler :=
  fun e el => if e = 3 then (el.AddEvent 1).1 else el

/-- A loop at time 10.7 s whose registry holds the timers 1 and 2, the
timer 0 being the one just fired; the timer objects have interval 1.6 s, the
timer 1 has the deadline `d` and the others 20 s plus their address in
seconds. -/
def loopWithOthers (d : timeval) : EventLoop :=
  { now_ := ⟨10, 700000⟩, stop_ := false, timers_ := [1, 2],
    heap := fun i =>
      if i = 1 then timerAt d ⟨1, 600000⟩
      else timerAt ⟨20 + (i : Int), 0⟩ ⟨1, 600000⟩ }

/-! # Theorems -/

/-! ## Arithmetic of time values -/

theorem tdiv_thousand (a : Int) :
    a.tdiv 1000 = if 0 ≤ a then a / 1000 else -((-a) / 1000) := by
  split
  · rw [Int.tdiv_eq_ediv] <;> omega
  · have h : a = -(-a) := by omega
    rw [h, Int.neg_tdiv, Int.tdiv_eq_ediv]
    · simp
    · omega
    · omega

theorem toInt32_of_range (x : Int) (h1 : -2147483648 ≤ x) (h2 : x < 2147483648) :
    toInt32 x = x := by
  unfold toInt32; omega

theorem TimeDiff_nonneg_bound (now tv : timeval) (hn : now.normalised) (ht : tv.normalised)
    (hr : tv.near now) (h : 0 ≤ TimeDiff now tv) : tv.usecs < now.usecs + 1000 := by
  unfold timeval.normalised at hn ht
  unfold timeval.near at hr
  unfold TimeDiff at h
  unfold timeval.usecs
  rw [tdiv_thousand] at h
  split at h
  · rw [toInt32_of_range _ (by omega) (by omega)] at h; omega
  · rw [toInt32_of_range _ (by omega) (by omega)] at h; omega

/-! ## The drain pass -/

theorem DoTimeout_fired_due (OnEvents : Handler)
    (hnow : ∀ e w, (OnEvents e w).now_ = w.now_) :
    ∀ (fuel : Nat) (el : EventLoop), ∀ f ∈ (el.DoTimeout OnEvents fuel).fired,
      f.events = TIMER ∧ 0 ≤ TimeDiff el.now_ f.time := by
  intro fuel
  induction fuel with
  | zero => intro el f hf; simp [EventLoop.DoTimeout] at hf
  | succ n ih =>
    intro el f hf
    unfold EventLoop.DoTimeout at hf
    split at hf
    · simp at hf
    · rename_i ite rest hq
      by_cases hlt : TimeDiff el.now_ (el.Time ite) < 0
      · simp [hlt] at hf
      · simp only [hlt, if_false, List.mem_cons] at hf
        rcases hf with rfl | hf
        · exact ⟨rfl, by simpa using hlt⟩
        · have h := ih _ f hf
          rw [hnow] at h
          exact h

/-- C1, evaluated on the code: a bound periodic timer of interval 1 s is
started at 10 s and fired by `DoTimeout`; its `OnTimer` calls `Stop()`, which
clears `running_`, yet when `DoTimeout` returns the timer is back in the
registry with deadline 11 s, and the drain at 11 s invokes it again. -/
theorem C1_stop_inside_OnTimer_rearmed :
    (PeriodicTimerEvent.Start 0 ⟨10, 0⟩ loopWithPeriodic).timers_ = [0]
    ∧ ((PeriodicTimerEvent.Start 0 ⟨10, 0⟩ loopWithPeriodic).DoTimeout
        (PeriodicTimerEvent.OnEvents stopInOnTimer) 3).fired = [⟨0, TIMER, ⟨10, 0⟩⟩]
    ∧ ((PeriodicTimerEvent.Start 0 ⟨10, 0⟩ loopWithPeriodic).DoTimeout
        (PeriodicTimerEvent.OnEvents stopInOnTimer) 3).finished = true
    ∧ (((PeriodicTimerEvent.Start 0 ⟨10, 0⟩ loopWithPeriodic).DoTimeout
        (PeriodicTimerEvent.OnEvents stopInOnTimer) 3).loop.heap 0).running_ = false
    ∧ ((PeriodicTimerEvent.Start 0 ⟨10, 0⟩ loopWithPeriodic).DoTimeout
        (PeriodicTimerEvent.OnEvents stopInOnTimer) 3).loop.timers_ = [0]
    ∧ (EventLoop.DoTimeout (PeriodicTimerEvent.OnEvents stopInOnTimer) 3
        { ((PeriodicTimerEvent.Start 0 ⟨10, 0⟩ loopWithPeriodic).DoTimeout
            (PeriodicTimerEvent.OnEvents stopInOnTimer) 3).loop with now_ := ⟨11, 0⟩ }).fired
        = [⟨0, TIMER, ⟨11, 0⟩⟩] := by
  decide

/-- The `int` returned by `TimeDiff` wraps: for a deadline 2160000 s (25 days)
after `now` the difference `TimeDiff(now, deadline)` comes out positive. -/
theorem TimeDiff_wraps_after_25_days :
    TimeDiff ⟨0, 0⟩ ⟨2160000, 0⟩ = 2134967296 := by
  decide

/-- C2 as stated fails: with `now_` = 0 s the drain removes and fires a timer
whose deadline, 500 microseconds, is strictly later than `now_`; both
timevals are normalised. -/
theorem C2_fires_timer_later_than_now :
    (⟨0, TIMER, ⟨0, 500⟩⟩ : Fired) ∈
        ((loopWithTimer ⟨0, 0⟩ ⟨0, 500⟩).DoTimeout noCallback 2).fired
    ∧ ((loopWithTimer ⟨0, 0⟩ ⟨0, 500⟩).DoTimeout noCallback 2).loop.timers_ = []
    ∧ timeval.later ⟨0, 500⟩ (loopWithTimer ⟨0, 0⟩ ⟨0, 500⟩).now_
    ∧ timeval.normalised ⟨0, 500⟩ ∧ (loopWithTimer ⟨0, 0⟩ ⟨0, 500⟩).now_.normalised := by
  decide

/-- C2, amended: every timer that `DoTimeout` removes and fires had, when it
was tested, a millisecond difference `TimeDiff(now_, deadline)` that is not
negative; for normalised timevals and a deadline within 2147482 s of `now_`
this means the deadline is less than one millisecond (1000 microseconds)
later than `now_`. Callbacks leave `now_` alone. -/
theorem C2_DoTimeout_fires_less_than_a_millisecond_early (OnEvents : Handler)
    (hnow : ∀ e w, (OnEvents e w).now_ = w.now_) (fuel : Nat) (el : EventLoop)
    (hn : el.now_.normalised) (f : Fired) (hf : f ∈ (el.DoTimeout OnEvents fuel).fired)
    (ht : f.time.normalised) (hr : f.time.near el.now_) :
    f.events = TIMER ∧ 0 ≤ TimeDiff el.now_ f.time ∧ f.time.usecs < el.now_.usecs + 1000 := by
  have h := DoTimeout_fired_due OnEvents hnow fuel el f hf
  exact ⟨h.1, h.2, TimeDiff_nonneg_bound _ _ hn ht hr h.2⟩

/-- An instance of C2, amended: the timer of deadline 500 microseconds fired at `now_` = 0. -/
theorem C2_DoTimeout_fires_less_than_a_millisecond_early_witness :
    (⟨0, TIMER, ⟨0, 500⟩⟩ : Fired) ∈
        ((loopWithTimer ⟨0, 0⟩ ⟨0, 500⟩).DoTimeout noCallback 2).fired
    ∧ (⟨0, TIMER, ⟨0, 500⟩⟩ : Fired).time.usecs
        < (loopWithTimer ⟨0, 0⟩ ⟨0, 500⟩).now_.usecs + 1000 :=
  ⟨by decide,
    (C2_DoTimeout_fires_less_than_a_millisecond_early noCallback (fun _ _ => rfl) 2
      (loopWithTimer ⟨0, 0⟩ ⟨0, 500⟩) (by decide) ⟨0, TIMER, ⟨0, 500⟩⟩ (by decide)
      (by decide) (by decide)).2.2⟩

/-- C3 as stated fails: the earliest timer is due exactly now (the difference
is 0 ms), the specified timeout is 0, and the loop polls with 100 ms. -/
theorem C3_due_timer_polls_with_100 :
    TimeDiff ((loopWithTimer ⟨5, 0⟩ ⟨5, 0⟩).Time 0) (loopWithTimer ⟨5, 0⟩ ⟨5, 0⟩).now_ = 0
    ∧ specTimeout (loopWithTimer ⟨5, 0⟩ ⟨5, 0⟩) = 0
    ∧ StartLoop.timeout (loopWithTimer ⟨5, 0⟩ ⟨5, 0⟩) = 100
    ∧ StartLoop.timeout (loopWithTimer ⟨5, 0⟩ ⟨5, 0⟩) ≠ specTimeout (loopWithTimer ⟨5, 0⟩ ⟨5, 0⟩) := by
  decide

/-- C3, amended: the poll timeout is 100 when the registry is empty, and
otherwise, for `d = TimeDiff(earliest deadline, now_)`, it is `min(100, d)`
when `d > 0` and 100 when `d <= 0` (the earliest timer already due); so it
agrees with the specified `min(100, max(0, d))` exactly when the registry is
empty or `d > 0`, and always lies between 1 and 100. -/
theorem C3_timeout_is_min_100_d_for_positive_d (el : EventLoop) :
    StartLoop.timeout el =
      (match el.timers_ with
        | [] => 100
        | ite :: _ =>
          if 0 < TimeDiff (el.Time ite) el.now_
          then min 100 (max 0 (TimeDiff (el.Time ite) el.now_)) else 100)
    ∧ 1 ≤ StartLoop.timeout el ∧ StartLoop.timeout el ≤ 100 := by
  unfold StartLoop.timeout
  cases el.timers_ with
  | nil => simp
  | cons ite rest =>
    simp only []
    split <;> split <;> omega

/-! ## The timer registry -/

theorem Compare_irrefl (t : timeval) : Compare t t = false := by
  simp [Compare]

theorem TimerSet.insert_mem (time : EventId → timeval) (e x : EventId) :
    ∀ l : List EventId, x ∈ (TimerSet.insert time e l).1 → x = e ∨ x ∈ l := by
  intro l
  induction l with
  | nil => intro h; simpa [TimerSet.insert] using h
  | cons y ys ih =>
    intro h
    unfold TimerSet.insert at h
    split at h
    · simp only [List.mem_cons] at h ⊢
      rcases h with h | h
      · exact Or.inr (Or.inl h)
      · rcases ih h with h | h
        · exact Or.inl h
        · exact Or.inr (Or.inr h)
    · split at h
      · simpa using h
      · exact Or.inr h

theorem TimerSet.insert_length (time : EventId → timeval) (e : EventId) :
    ∀ l : List EventId, (TimerSet.insert time e l).1.length ≤ l.length + 1 := by
  intro l
  induction l with
  | nil => simp [TimerSet.insert]
  | cons y ys ih =>
    unfold TimerSet.insert
    split
    · simpa using ih
    · split <;> simp

theorem TimerSet.insert_equivalent (time : EventId → timeval) (e1 e2 : EventId)
    (h : time e1 = time e2) :
    ∀ l : List EventId,
      TimerSet.insert time e2 (TimerSet.insert time e1 l).1
        = ((TimerSet.insert time e1 l).1, false) := by
  intro l
  induction l with
  | nil => simp [TimerSet.insert, h, Compare_irrefl]
  | cons y ys ih =>
    by_cases h1 : Compare (time y) (time e1) = true
    · have h2 : Compare (time y) (time e2) = true := by rw [← h]; exact h1
      simp only [TimerSet.insert, h1, if_true, h2, ih]
    · by_cases h3 : Compare (time e1) (time y) = true
      · simp [TimerSet.insert, h1, h3, ← h, Compare_irrefl]
      · simp [TimerSet.insert, h1, h3, ← h]

/-- C4 as stated fails: two distinct timer objects with the same deadline are
added to an empty registry; the first `AddEvent` returns 0, the second returns
1, the registry holds one event, not two, and a drain at a later time fires
the first event only. -/
theorem C4_second_equal_deadline_rejected :
    (0 : EventId) ≠ 1
    ∧ loopTwoEqual.Time 0 = loopTwoEqual.Time 1
    ∧ (loopTwoEqual.AddEvent 0).2 = 0
    ∧ ((loopTwoEqual.AddEvent 0).1.AddEvent 1).2 = 1
    ∧ ((loopTwoEqual.AddEvent 0).1.AddEvent 1).1.timers_ = [0]
    ∧ ((loopTwoEqual.AddEvent 0).1.AddEvent 1).1.timers_.length ≠ loopTwoEqual.timers_.length + 2
    ∧ (EventLoop.DoTimeout noCallback 5
        { ((loopTwoEqual.AddEvent 0).1.AddEvent 1).1 with now_ := ⟨9, 0⟩ }).fired
        = [⟨0, TIMER, ⟨5, 0⟩⟩] := by
  decide

/-- C4, amended: the registry is ordered by deadline alone, without a second
key, and holds one event per deadline: for two timer events with equal
deadlines, once `AddEvent` has been called for the first, `AddEvent` of the
second returns 1 (failure) and leaves the registry as it was; the two calls
together add at most one event, and the second event is not held unless it
was before. -/
theorem C4_equal_deadline_AddEvent_fails (el : EventLoop) (e1 e2 : EventId)
    (h : el.Time e1 = el.Time e2) :
    ((el.AddEvent e1).1.AddEvent e2).2 = 1
    ∧ ((el.AddEvent e1).1.AddEvent e2).1.timers_ = (el.AddEvent e1).1.timers_
    ∧ ((el.AddEvent e1).1.AddEvent e2).1.timers_.length ≤ el.timers_.length + 1
    ∧ (e2 ≠ e1 → e2 ∉ el.timers_ → e2 ∉ ((el.AddEvent e1).1.AddEvent e2).1.timers_) := by
  have key := TimerSet.insert_equivalent el.Time e1 e2 h el.timers_
  have hT : (el.AddEvent e1).1.Time = el.Time := rfl
  have hL : (el.AddEvent e1).1.timers_ = (TimerSet.insert el.Time e1 el.timers_).1 := rfl
  have h2 : ((el.AddEvent e1).1.AddEvent e2).1.timers_ = (el.AddEvent e1).1.timers_ := by
    show (TimerSet.insert (el.AddEvent e1).1.Time e2 (el.AddEvent e1).1.timers_).1 = _
    rw [hT, hL, key]
  refine ⟨?_, h2, ?_, ?_⟩
  · show (if (TimerSet.insert (el.AddEvent e1).1.Time e2 (el.AddEvent e1).1.timers_).2
        then (0 : Int) else 1) = 1
    rw [hT, hL, key]; simp
  · rw [h2, hL]; exact TimerSet.insert_length _ _ _
  · intro hne hnot hmem
    rw [h2, hL] at hmem
    rcases TimerSet.insert_mem _ _ _ _ hmem with h' | h'
    · exact hne h'
    · exact hnot h'

/-- An instance of C4, amended: the objects 0 and 1 of equal deadline 5 s. -/
theorem C4_equal_deadline_AddEvent_fails_witness :
    loopTwoEqual.Time 0 = loopTwoEqual.Time 1
    ∧ ((loopTwoEqual.AddEvent 0).1.AddEvent 1).2 = 1 :=
  ⟨by decide, (C4_equal_deadline_AddEvent_fails loopTwoEqual 0 1 (by decide)).1⟩

/-! ## BufferIOEvent: the read path -/

/-- C5: after a read of n > 0 bytes `ReceiveData` applies the delivery rule to
the accumulation buffer with the bytes appended: target 0 delivers all of it
and empties the buffer; target N > 0 with at least N bytes delivers exactly
the first N and keeps the rest; target N > 0 with fewer bytes delivers
nothing and keeps everything; no other member changes. The three examples of
the specification are included, run through `OnEvents` with READ readiness. -/
theorem C5_ReceiveData_delivery_rule (self : BufferIOEvent) (data : Bytes)
    (hd : 0 < data.length) :
    (self.torecv_ = 0 →
        (self.ReceiveData [] data.length data).rtn_data = self.recvbuf_ ++ data
        ∧ (self.ReceiveData [] data.length data).self = { self with recvbuf_ := [] })
    ∧ (0 < self.torecv_ → self.torecv_ ≤ (self.recvbuf_ ++ data).length →
        (self.ReceiveData [] data.length data).rtn_data
          = (self.recvbuf_ ++ data).take self.torecv_
        ∧ (self.ReceiveData [] data.length data).rtn_data.length = self.torecv_
        ∧ (self.ReceiveData [] data.length data).self
          = { self with recvbuf_ := (self.recvbuf_ ++ data).drop self.torecv_ })
    ∧ (0 < self.torecv_ → (self.recvbuf_ ++ data).length < self.torecv_ →
        (self.ReceiveData [] data.length data).rtn_data = []
        ∧ (self.ReceiveData [] data.length data).self
          = { self with recvbuf_ := self.recvbuf_ ++ data })
    ∧ ((BufferIOEvent.fresh 5 5).OnEvents neverWritable 0 READ 2 ['a', 'b'] 0
          = some ⟨{ BufferIOEvent.fresh 5 5 with recvbuf_ := ['a', 'b'] }, 0, []⟩
        ∧ BufferIOEvent.OnEvents neverWritable 0
            { BufferIOEvent.fresh 5 5 with recvbuf_ := ['a', 'b'] } READ 3 ['c', 'd', 'e'] 0
          = some ⟨BufferIOEvent.fresh 5 5, 0, [Call.OnReceived ['a', 'b', 'c', 'd', 'e']]⟩)
    ∧ (BufferIOEvent.fresh 5 5).OnEvents neverWritable 0 READ 6 ['a', 'b', 'c', 'd', 'e', 'f'] 0
        = some ⟨{ BufferIOEvent.fresh 5 5 with recvbuf_ := ['f'] }, 0,
            [Call.OnReceived ['a', 'b', 'c', 'd', 'e']]⟩
    ∧ ((BufferIOEvent.fresh 5 0).OnEvents neverWritable 0 READ 2 ['a', 'b'] 0
          = some ⟨BufferIOEvent.fresh 5 0, 0, [Call.OnReceived ['a', 'b']]⟩
        ∧ (BufferIOEvent.fresh 5 0).OnEvents neverWritable 0 READ 2 ['c', 'd'] 0
          = some ⟨BufferIOEvent.fresh 5 0, 0, [Call.OnReceived ['c', 'd']]⟩) := by
  have hpos : ¬ ((data.length : Int) ≤ 0) := by omega
  have htake : data.take (data.length : Int).toNat = data := by simp
  refine ⟨?_, ?_, ?_, ?_, ?_, ?_⟩
  · intro h0
    simp [BufferIOEvent.ReceiveData, hpos, h0]
  · intro hN hle
    have hle2 : self.torecv_ ≤ self.recvbuf_.length + data.length := by simpa using hle
    simp [BufferIOEvent.ReceiveData, hpos, hN, hle2]
  · intro hN hlt
    have hlt2 : ¬ (self.torecv_ ≤ self.recvbuf_.length + data.length) := by
      simp at hlt; omega
    simp [BufferIOEvent.ReceiveData, hpos, hlt2]
  · decide
  · decide
  · decide

/-- An instance of C5: target 5, "ab" accumulated, a read of "cde". -/
theorem C5_ReceiveData_delivery_rule_witness :
    (BufferIOEvent.ReceiveData { BufferIOEvent.fresh 5 5 with recvbuf_ := ['a', 'b'] } []
        (['c', 'd', 'e'] : Bytes).length ['c', 'd', 'e']).rtn_data = ['a', 'b', 'c', 'd', 'e']
    ∧ (BufferIOEvent.ReceiveData { BufferIOEvent.fresh 5 5 with recvbuf_ := ['a', 'b'] } []
        (['c', 'd', 'e'] : Bytes).length ['c', 'd', 'e']).self = BufferIOEvent.fresh 5 5 :=
  ⟨((C5_ReceiveData_delivery_rule { BufferIOEvent.fresh 5 5 with recvbuf_ := ['a', 'b'] }
      ['c', 'd', 'e'] (by decide)).2.1 (by decide) (by decide)).1,
   ((C5_ReceiveData_delivery_rule { BufferIOEvent.fresh 5 5 with recvbuf_ := ['a', 'b'] }
      ['c', 'd', 'e'] (by decide)).2.1 (by decide) (by decide)).2.2⟩

/-- C8: on READ readiness a read that returns 0 makes `OnEvents` invoke
`OnClosed` and nothing else, a read that returns a negative value makes it
invoke `OnError` and nothing else; in both cases the call returns at once:
the object, its accumulation buffer included, is unchanged and no write is
made, whatever the WRITE and ERROR bits. -/
theorem C8_read_zero_closes_negative_errors (env : Writes) (fuel : Nat)
    (self : BufferIOEvent) (events : Nat) (len : Int) (buffer : Bytes) (k : Nat)
    (hread : events &&& READ ≠ 0) (hlen : len ≤ 0) :
    self.OnEvents env fuel events len buffer k
      = some ⟨self, k, [if len = 0 then Call.OnClosed else Call.OnError]⟩ := by
  unfold BufferIOEvent.OnEvents
  rw [if_pos hread]
  have hr : self.ReceiveData [] len buffer = ⟨len, [], self⟩ := by
    simp [BufferIOEvent.ReceiveData, hlen]
  simp only [hr]
  by_cases h0 : len = 0
  · simp [h0]
  · have hneg : len < 0 := by omega
    simp [h0, hneg]

/-- An instance of C8: all three bits ready, two buffers queued, a read of 0 and a read of -1. -/
theorem C8_read_zero_closes_negative_errors_witness :
    twoQueued.OnEvents twoThenOne 3 7 0 [] 0 = some ⟨twoQueued, 0, [Call.OnClosed]⟩
    ∧ twoQueued.OnEvents twoThenOne 3 7 (-1) [] 0 = some ⟨twoQueued, 0, [Call.OnError]⟩ :=
  ⟨C8_read_zero_closes_negative_errors twoThenOne 3 twoQueued 7 0 [] 0 (by decide) (by decide),
   C8_read_zero_closes_negative_errors twoThenOne 3 twoQueued 7 (-1) [] 0 (by decide)
    (by decide)⟩

/-! ## BufferIOEvent: the write path -/

/-- C7, evaluated on the code: WRITE interest is on and "ab", "cd" are queued;
the descriptor takes "ab" and then only "c". `SendData` stops on the short
write with "cd" still queued at offset 1, and WRITE interest is off: it was
cleared when "ab" was completed, although the queue was not empty. -/
theorem C7_short_write_after_completed_buffer_clears_WRITE :
    twoQueued.events_ &&& WRITE ≠ 0
    ∧ (twoQueued.SendData twoThenOne 0).self.sendbuf_list_ = [['c', 'd']]
    ∧ (twoQueued.SendData twoThenOne 0).self.sent_ = 1
    ∧ (twoQueued.SendData twoThenOne 0).calls
        = [Call.Written ['a', 'b'], Call.UpdateEvent 5, Call.OnSent ['a', 'b'],
            Call.Written ['c']]
    ∧ (twoQueued.SendData twoThenOne 0).self.events_ &&& WRITE = 0 := by
  decide

theorem or_WRITE_and_WRITE (e : Nat) : (e ||| WRITE) &&& WRITE ≠ 0 := by
  have h : (e ||| WRITE) &&& WRITE = WRITE := by
    apply Nat.eq_of_testBit_eq
    intro i
    simp only [Nat.testBit_land, Nat.testBit_lor]
    cases e.testBit i <;> cases Nat.testBit WRITE i <;> rfl
  rw [h]; decide

theorem SendAll_with_WRITE_on (bs : List Bytes) :
    ∀ self : BufferIOEvent, self.events_ &&& WRITE ≠ 0 →
      self.SendAll bs = ({ self with sendbuf_list_ := self.sendbuf_list_ ++ bs }, []) := by
  induction bs with
  | nil => intro self _; simp [BufferIOEvent.SendAll]
  | cons b bs ih =>
    intro self h
    have hs : self.Send b = ({ self with sendbuf_list_ := self.sendbuf_list_ ++ [b] }, []) := by
      simp [BufferIOEvent.Send, h]
    have hi := ih { self with sendbuf_list_ := self.sendbuf_list_ ++ [b] } h
    simp only [BufferIOEvent.SendAll, hs]
    rw [hi]
    simp

/-- C10: on an event with an empty send queue and WRITE interest off, the
first of k >= 1 consecutive `Send` calls queues its buffer, sets the WRITE bit
and re-registers the event once; each later call appends its buffer at the
tail, changes nothing else and re-registers nothing, so the k calls together
make exactly one `UpdateEvent`. -/
theorem C10_Send_enables_WRITE_once (self : BufferIOEvent) (b : Bytes) (bs : List Bytes)
    (hq : self.sendbuf_list_ = []) (hw : self.events_ &&& WRITE = 0) :
    self.Send b = ({ self with sendbuf_list_ := [b], events_ := self.events_ ||| WRITE },
        [Call.UpdateEvent (self.events_ ||| WRITE)])
    ∧ (self.Send b).1.SendAll bs
        = ({ self with sendbuf_list_ := b :: bs, events_ := self.events_ ||| WRITE }, [])
    ∧ self.SendAll (b :: bs)
        = ({ self with sendbuf_list_ := b :: bs, events_ := self.events_ ||| WRITE },
            [Call.UpdateEvent (self.events_ ||| WRITE)]) := by
  have h1 : self.Send b
      = ({ self with sendbuf_list_ := [b], events_ := self.events_ ||| WRITE },
          [Call.UpdateEvent (self.events_ ||| WRITE)]) := by
    simp [BufferIOEvent.Send, hw, hq]
  have h2 : (self.Send b).1.SendAll bs
      = ({ self with sendbuf_list_ := b :: bs, events_ := self.events_ ||| WRITE }, []) := by
    rw [h1, SendAll_with_WRITE_on bs _ (or_WRITE_and_WRITE _)]
    simp
  refine ⟨h1, h2, ?_⟩
  simp only [BufferIOEvent.SendAll]
  rw [h2, h1]
  simp

/-- An instance of C10: three `Send` calls on a fresh event with READ and ERROR interest. -/
theorem C10_Send_enables_WRITE_once_witness :
    (BufferIOEvent.fresh 5 0).SendAll [['a'], ['b'], ['c']]
      = ({ BufferIOEvent.fresh 5 0 with sendbuf_list_ := [['a'], ['b'], ['c']], events_ := 7 },
          [Call.UpdateEvent 7]) :=
  (C10_Send_enables_WRITE_once (BufferIOEvent.fresh 5 0) ['a'] [['b'], ['c']]
    (by decide) (by decide)).2.2

@[simp]
theorem written_nil : written [] = [] := rfl

@[simp]
theorem onSent_nil : onSent [] = [] := rfl

@[simp]
theorem written_cons (c : Call) (cs : List Call) :
    written (c :: cs) = c.accepted ++ written cs := by
  simp [written]

@[simp]
theorem onSent_cons (c : Call) (cs : List Call) :
    onSent (c :: cs) = c.reported ++ onSent cs := by
  simp [onSent]

theorem SendData.loop_cons (env : Writes) (torecv_ : Nat) (recvbuf_ : Bytes) (b : Bytes)
    (rest : List Bytes) (sent_ events_ total k room : Nat) (henv : env k = some room)
    (hb : b.length < 4294967296) (hs : sent_ ≤ b.length) :
    SendData.loop env torecv_ recvbuf_ (b :: rest) sent_ events_ total k
      = if sent_ + min room (b.length - sent_) = b.length then
          { SendData.loop env torecv_ recvbuf_ rest 0 (events_ &&& 4294967293)
              ((total + (sent_ + min room (b.length - sent_))) % 4294967296) (k + 1) with
            calls := Call.Written ((b.drop sent_).take (min room (b.length - sent_)))
              :: Call.UpdateEvent (events_ &&& 4294967293) :: Call.OnSent b
              :: (SendData.loop env torecv_ recvbuf_ rest 0 (events_ &&& 4294967293)
                  ((total + (sent_ + min room (b.length - sent_))) % 4294967296) (k + 1)).calls }
        else
          { ret := toInt32 (((total + (sent_ + min room (b.length - sent_))) % 4294967296 : Nat)),
            self := ⟨events_, recvbuf_, torecv_, b :: rest, sent_ + min room (b.length - sent_)⟩,
            writes := k + 1,
            calls := [Call.Written ((b.drop sent_).take (min room (b.length - sent_)))] } := by
  have htosend : b.length % 4294967296 = b.length := Nat.mod_eq_of_lt hb
  have hcount : (b.length + 4294967296 - sent_) % 4294967296 = b.length - sent_ := by omega
  have hsent1 : (sent_ + min room (b.length - sent_)) % 4294967296
      = sent_ + min room (b.length - sent_) := by omega
  rw [SendData.loop]
  simp only [henv, htosend, hcount, hsent1]

theorem SendData.loop_trace (env : Writes) (torecv_ : Nat) (recvbuf_ : Bytes) :
    ∀ (queue : List Bytes) (sent_ events_ total k : Nat), sendOK queue sent_ →
      sendOK (SendData.loop env torecv_ recvbuf_ queue sent_ events_ total k).self.sendbuf_list_
          (SendData.loop env torecv_ recvbuf_ queue sent_ events_ total k).self.sent_
      ∧ onSent (SendData.loop env torecv_ recvbuf_ queue sent_ events_ total k).calls
          ++ (SendData.loop env torecv_ recvbuf_ queue sent_ events_ total k).self.sendbuf_list_
          = queue
      ∧ (queue.headD []).take sent_
          ++ written (SendData.loop env torecv_ recvbuf_ queue sent_ events_ total k).calls
          = (onSent (SendData.loop env torecv_ recvbuf_ queue sent_ events_ total k).calls).flatten
            ++ ((SendData.loop env torecv_ recvbuf_ queue sent_ events_ total
                  k).self.sendbuf_list_.headD []).take
                (SendData.loop env torecv_ recvbuf_ queue sent_ events_ total k).self.sent_ := by
  intro queue
  induction queue with
  | nil =>
    intro sent_ events_ total k h
    simpa [SendData.loop] using h
  | cons b rest ih =>
    intro sent_ events_ total k h
    have hb : b.length < 4294967296 := h.1 b (by simp)
    have hs : sent_ ≤ b.length := by simpa using h.2
    have hrest : sendOK rest 0 := ⟨fun x hx => h.1 x (by simp [hx]), Nat.zero_le _⟩
    cases henv : env k with
    | none =>
      have hl : SendData.loop env torecv_ recvbuf_ (b :: rest) sent_ events_ total k
          = { ret := -1, self := ⟨events_, recvbuf_, torecv_, b :: rest, sent_⟩,
              writes := k + 1, calls := [] } := by
        rw [SendData.loop]; simp only [henv]
      rw [hl]
      exact ⟨h, by simp, by simp⟩
    | some room =>
      rw [SendData.loop_cons env torecv_ recvbuf_ b rest sent_ events_ total k room henv hb hs]
      by_cases hfull : sent_ + min room (b.length - sent_) = b.length
      · rw [if_pos hfull]
        obtain ⟨i1, i2, i3⟩ := ih 0 (events_ &&& 4294967293)
          ((total + (sent_ + min room (b.length - sent_))) % 4294967296) (k + 1) hrest
        refine ⟨i1, ?_, ?_⟩
        · simp [Call.reported, i2]
        · have hmin : min room (b.length - sent_) = b.length - sent_ := by omega
          have htk : (b.drop sent_).take (min room (b.length - sent_)) = b.drop sent_ := by
            rw [hmin]; exact List.take_of_length_le (by simp)
          simp only [List.take_zero, List.nil_append] at i3
          simp only [Call.reported, Call.accepted, htk, i3, List.headD_cons, written_cons,
            onSent_cons, List.nil_append, List.flatten_append, List.flatten_cons,
            List.flatten_nil, List.append_nil, List.singleton_append]
          rw [← List.append_assoc, List.take_append_drop, List.append_assoc]
      · rw [if_neg hfull]
        refine ⟨⟨h.1, ?_⟩, by simp [Call.reported], ?_⟩
        · simp; omega
        · simp [Call.reported, Call.accepted, List.take_add]

theorem SendData.loop_progress (env : Writes) (hprog : ∀ i, env i ≠ some 0) (torecv_ : Nat)
    (recvbuf_ : Bytes) :
    ∀ (queue : List Bytes) (sent_ events_ total k : Nat), sendOK queue sent_ →
      (SendData.loop env torecv_ recvbuf_ queue sent_ events_ total k).ret < 0
      ∨ (pending (SendData.loop env torecv_ recvbuf_ queue sent_ events_ total k).self.sendbuf_list_
            (SendData.loop env torecv_ recvbuf_ queue sent_ events_ total k).self.sent_
            ≤ pending queue sent_
          ∧ (queue ≠ [] →
              pending (SendData.loop env torecv_ recvbuf_ queue sent_ events_ total
                  k).self.sendbuf_list_
                (SendData.loop env torecv_ recvbuf_ queue sent_ events_ total k).self.sent_
                < pending queue sent_)) := by
  intro queue
  induction queue with
  | nil =>
    intro sent_ events_ total k _
    right
    simp [SendData.loop]
  | cons b rest ih =>
    intro sent_ events_ total k h
    have hb : b.length < 4294967296 := h.1 b (by simp)
    have hs : sent_ ≤ b.length := by simpa using h.2
    have hrest : sendOK rest 0 := ⟨fun x hx => h.1 x (by simp [hx]), Nat.zero_le _⟩
    cases henv : env k with
    | none =>
      left
      rw [SendData.loop]; simp only [henv]; decide
    | some room =>
      have hroom : room ≠ 0 := fun h0 => hprog k (by rw [henv, h0])
      rw [SendData.loop_cons env torecv_ recvbuf_ b rest sent_ events_ total k room henv hb hs]
      by_cases hfull : sent_ + min room (b.length - sent_) = b.length
      · rw [if_pos hfull]
        rcases ih 0 (events_ &&& 4294967293)
          ((total + (sent_ + min room (b.length - sent_))) % 4294967296) (k + 1) hrest
          with hneg | ⟨hle, _⟩
        · left; exact hneg
        · right
          have hlt : pending (SendData.loop env torecv_ recvbuf_ rest 0 (events_ &&& 4294967293)
                ((total + (sent_ + min room (b.length - sent_))) % 4294967296)
                (k + 1)).self.sendbuf_list_
              (SendData.loop env torecv_ recvbuf_ rest 0 (events_ &&& 4294967293)
                ((total + (sent_ + min room (b.length - sent_))) % 4294967296)
                (k + 1)).self.sent_ < pending (b :: rest) sent_ := by
            have h1 : pending (b :: rest) sent_ = b.length + 1 + pending rest 0 - sent_ := by
              simp [pending]
            omega
          exact ⟨Nat.le_of_lt hlt, fun _ => hlt⟩
      · rw [if_neg hfull]
        right
        have hlt : pending (b :: rest) (sent_ + min room (b.length - sent_))
            < pending (b :: rest) sent_ := by
          simp only [pending, List.map_cons, List.sum_cons]
          omega
        exact ⟨Nat.le_of_lt hlt, fun _ => hlt⟩

theorem OnEvents.writeLoop_returns (env : Writes) (hprog : ∀ i, env i ≠ some 0) :
    ∀ (fuel : Nat) (self : BufferIOEvent) (k : Nat),
      sendOK self.sendbuf_list_ self.sent_ → pending self.sendbuf_list_ self.sent_ ≤ fuel →
      ∃ r, OnEvents.writeLoop env fuel self k = some r := by
  intro fuel
  induction fuel with
  | zero =>
    intro self k hok hle
    by_cases hq : self.sendbuf_list_ = []
    · simp [OnEvents.writeLoop, hq]
    · exfalso
      cases hl : self.sendbuf_list_ with
      | nil => exact hq hl
      | cons b rest =>
        rw [hl] at hle hok
        have hs : self.sent_ ≤ b.length := by simpa using hok.2
        simp only [pending, List.map_cons, List.sum_cons] at hle
        omega
  | succ n ih =>
    intro self k hok hle
    by_cases hq : self.sendbuf_list_ = []
    · simp [OnEvents.writeLoop, hq]
    · by_cases hneg : (self.SendData env k).ret < 0
      · simp [OnEvents.writeLoop, hq, hneg]
      · have hok2 := (SendData.loop_trace env self.torecv_ self.recvbuf_ self.sendbuf_list_
          self.sent_ self.events_ 0 k hok).1
        rcases SendData.loop_progress env hprog self.torecv_ self.recvbuf_ self.sendbuf_list_
          self.sent_ self.events_ 0 k hok with h1 | ⟨_, h2⟩
        · exact absurd h1 hneg
        · have hlt := h2 hq
          obtain ⟨r, hr⟩ := ih (self.SendData env k).self (self.SendData env k).writes hok2
            (by unfold BufferIOEvent.SendData; omega)
          simp [OnEvents.writeLoop, hq, hneg, hr]

theorem OnEvents.writeLoop_failed (env : Writes) :
    ∀ (fuel : Nat) (self : BufferIOEvent) (k : Nat) (h : Handled),
      OnEvents.writeLoop env fuel self k = some (true, h) → Call.OnError ∈ h.calls := by
  intro fuel
  induction fuel with
  | zero =>
    intro self k h hr
    unfold OnEvents.writeLoop at hr
    split at hr <;> simp at hr
  | succ n ih =>
    intro self k h hr
    unfold OnEvents.writeLoop at hr
    by_cases hq : self.sendbuf_list_ = []
    · simp [hq] at hr
    · by_cases hneg : (self.SendData env k).ret < 0
      · simp only [hq, hneg, if_false, if_true, Option.some.injEq, Prod.mk.injEq, true_and] at hr
        rw [← hr]; simp
      · simp only [hq, hneg, if_false] at hr
        cases hw : OnEvents.writeLoop env n (self.SendData env k).self
            (self.SendData env k).writes with
        | none => rw [hw] at hr; simp at hr
        | some p =>
          obtain ⟨failed, h2⟩ := p
          rw [hw] at hr
          simp only [Option.some.injEq, Prod.mk.injEq] at hr
          obtain ⟨hf, hh⟩ := hr
          rw [hf] at hw
          have := ih _ _ _ hw
          rw [← hh]
          simp [this]

theorem OnEvents.writeBranch_OnError (env : Writes) (fuel events : Nat) (h0 h : Handled)
    (herr : events &&& ERROR ≠ 0) (hr : OnEvents.writeBranch env fuel events h0 = some h) :
    Call.OnError ∈ h.calls := by
  unfold OnEvents.writeBranch at hr
  by_cases hw : events &&& WRITE ≠ 0
  · rw [if_pos hw] at hr
    cases hl : OnEvents.writeLoop env fuel h0.self h0.writes with
    | none => rw [hl] at hr; simp at hr
    | some p =>
      obtain ⟨failed, h2⟩ := p
      rw [hl] at hr
      cases failed with
      | true =>
        simp only [Option.some.injEq] at hr
        have := OnEvents.writeLoop_failed env fuel _ _ _ hl
        rw [← hr]; simp [this]
      | false =>
        simp only [Option.some.injEq] at hr
        rw [← hr]; simp [OnEvents.errorBranch, herr]
  · rw [if_neg hw] at hr
    simp only [Option.some.injEq] at hr
    rw [← hr]; simp [OnEvents.errorBranch, herr]

theorem OnEvents.writeBranch_returns (env : Writes) (hprog : ∀ i, env i ≠ some 0)
    (fuel events : Nat) (h0 : Handled) (hok : sendOK h0.self.sendbuf_list_ h0.self.sent_)
    (hfuel : pending h0.self.sendbuf_list_ h0.self.sent_ ≤ fuel) :
    ∃ h, OnEvents.writeBranch env fuel events h0 = some h := by
  unfold OnEvents.writeBranch
  by_cases hw : events &&& WRITE ≠ 0
  · rw [if_pos hw]
    obtain ⟨⟨failed, h2⟩, hr⟩ := OnEvents.writeLoop_returns env hprog fuel h0.self h0.writes
      hok hfuel
    rw [hr]
    cases failed <;> exact ⟨_, rfl⟩
  · rw [if_neg hw]; exact ⟨_, rfl⟩

theorem ReceiveData_keeps_queue (self : BufferIOEvent) (rtn : Bytes) (len : Int)
    (buffer : Bytes) :
    (self.ReceiveData rtn len buffer).self.sendbuf_list_ = self.sendbuf_list_
    ∧ (self.ReceiveData rtn len buffer).self.sent_ = self.sent_ := by
  unfold BufferIOEvent.ReceiveData
  split
  · exact ⟨rfl, rfl⟩
  · simp only []
    split
    · split <;> exact ⟨rfl, rfl⟩
    · exact ⟨rfl, rfl⟩

/-- C6 as stated fails: the mask is READ | ERROR and the read returns 0;
`OnEvents` invokes `OnClosed` and returns, and `OnError` is not invoked. -/
theorem C6_read_zero_with_ERROR_skips_OnError :
    readAndError &&& ERROR ≠ 0
    ∧ (BufferIOEvent.fresh 5 0).OnEvents neverWritable 0 readAndError 0 [] 0
        = some ⟨BufferIOEvent.fresh 5 0, 0, [Call.OnClosed]⟩
    ∧ Call.OnError ∉ ([Call.OnClosed] : List Call) := by
  decide

/-- C6, amended: for every readiness mask that contains the ERROR bit,
`OnEvents` has invoked `OnError` at least once when it returns, whatever the
READ and WRITE bits and the outcomes of the read and the writes, except when
the READ bit is set and `ReceiveData` returns 0: then the call ends with
`OnClosed`. The call does return, within `pending` rounds of the write loop,
when the send queue is consistent and every write fails or accepts at least
one byte. -/
theorem C6_ERROR_readiness_invokes_OnError (env : Writes) (self : BufferIOEvent)
    (events : Nat) (len : Int) (buffer : Bytes) (k : Nat)
    (herr : events &&& ERROR ≠ 0)
    (hopen : ¬ (events &&& READ ≠ 0 ∧ (self.ReceiveData [] len buffer).ret = 0)) :
    (∀ fuel h, self.OnEvents env fuel events len buffer k = some h → Call.OnError ∈ h.calls)
    ∧ ((∀ i, env i ≠ some 0) → sendOK self.sendbuf_list_ self.sent_ →
        ∃ h, self.OnEvents env (pending self.sendbuf_list_ self.sent_) events len buffer k
            = some h ∧ Call.OnError ∈ h.calls) := by
  have part : ∀ fuel h, self.OnEvents env fuel events len buffer k = some h →
      Call.OnError ∈ h.calls := by
    intro fuel h hr
    unfold BufferIOEvent.OnEvents at hr
    by_cases hread : events &&& READ ≠ 0
    · rw [if_pos hread] at hr
      simp only [] at hr
      by_cases hneg : (self.ReceiveData [] len buffer).ret < 0
      · rw [if_pos hneg] at hr
        simp only [Option.some.injEq] at hr
        rw [← hr]; simp
      · rw [if_neg hneg] at hr
        have hnz : ¬ (self.ReceiveData [] len buffer).ret = 0 := fun h0 => hopen ⟨hread, h0⟩
        rw [if_neg hnz] at hr
        exact OnEvents.writeBranch_OnError env fuel events _ h herr hr
    · rw [if_neg hread] at hr
      exact OnEvents.writeBranch_OnError env fuel events _ h herr hr
  refine ⟨part, ?_⟩
  intro hprog hok
  have hret : ∃ h, self.OnEvents env (pending self.sendbuf_list_ self.sent_) events len
      buffer k = some h := by
    unfold BufferIOEvent.OnEvents
    by_cases hread : events &&& READ ≠ 0
    · rw [if_pos hread]
      simp only []
      by_cases hneg : (self.ReceiveData [] len buffer).ret < 0
      · rw [if_pos hneg]; exact ⟨_, rfl⟩
      · rw [if_neg hneg]
        have hnz : ¬ (self.ReceiveData [] len buffer).ret = 0 := fun h0 => hopen ⟨hread, h0⟩
        rw [if_neg hnz]
        have hk := ReceiveData_keeps_queue self [] len buffer
        apply OnEvents.writeBranch_returns env hprog
        · show sendOK (self.ReceiveData [] len buffer).self.sendbuf_list_
            (self.ReceiveData [] len buffer).self.sent_
          rw [hk.1, hk.2]; exact hok
        · show pending (self.ReceiveData [] len buffer).self.sendbuf_list_
            (self.ReceiveData [] len buffer).self.sent_ ≤ _
          rw [hk.1, hk.2]
    · rw [if_neg hread]
      exact OnEvents.writeBranch_returns env hprog _ _ _ hok (Nat.le_refl _)
  obtain ⟨h, hh⟩ := hret
  exact ⟨h, hh, part _ h hh⟩

/-- An instance of C6, amended: all three bits ready, a read of "xy", and a
descriptor that takes 2 bytes, then 1, then fails; and, for the second part, a
descriptor that takes one byte at every write. -/
theorem C6_ERROR_readiness_invokes_OnError_witness :
    (twoQueued.OnEvents twoThenOne 6 7 2 ['x', 'y'] 0
      = some ⟨{ twoQueued with events_ := 5, sendbuf_list_ := [['c', 'd']], sent_ := 1 }, 3,
          [Call.OnReceived ['x', 'y'], Call.Written ['a', 'b'], Call.UpdateEvent 5,
            Call.OnSent ['a', 'b'], Call.Written ['c'], Call.OnError]⟩
      ∧ Call.OnError ∈
          [Call.OnReceived ['x', 'y'], Call.Written ['a', 'b'], Call.UpdateEvent 5,
            Call.OnSent ['a', 'b'], Call.Written ['c'], Call.OnError])
    ∧ ∃ h, twoQueued.OnEvents (fun _ => some 1) (pending twoQueued.sendbuf_list_ twoQueued.sent_)
        7 2 ['x', 'y'] 0 = some h ∧ Call.OnError ∈ h.calls :=
  ⟨⟨by decide,
    (C6_ERROR_readiness_invokes_OnError twoThenOne twoQueued 7 2 ['x', 'y'] 0
      (by decide) (by decide)).1 6
      ⟨{ twoQueued with events_ := 5, sendbuf_list_ := [['c', 'd']], sent_ := 1 }, 3,
        [Call.OnReceived ['x', 'y'], Call.Written ['a', 'b'], Call.UpdateEvent 5,
          Call.OnSent ['a', 'b'], Call.Written ['c'], Call.OnError]⟩
      (by decide)⟩,
   (C6_ERROR_readiness_invokes_OnError (fun _ => some 1) twoQueued 7 2 ['x', 'y'] 0
      (by decide) (by decide)).2 (fun _ => by decide) (by decide)⟩

/-! ## Cancel -/

theorem Compare_total (a b : timeval) (h1 : Compare a b = false) (h2 : Compare b a = false) :
    a = b := by
  cases a with
  | mk as au =>
    cases b with
    | mk bs bu =>
      simp only [Compare, Bool.or_eq_false_iff, Bool.and_eq_false_iff, decide_eq_false_iff_not]
        at h1 h2
      have hs : as = bs := by omega
      have hu : au = bu := by omega
      rw [hs, hu]

theorem Compare_trans (a b c : timeval) (h1 : Compare a b = true) (h2 : Compare b c = true) :
    Compare a c = true := by
  simp only [Compare, Bool.or_eq_true, Bool.and_eq_true, decide_eq_true_eq] at h1 h2 ⊢
  omega

theorem TimerSet.erase_absent (time : EventId → timeval) (e : EventId) :
    ∀ l : List EventId, (∀ x ∈ l, time x ≠ time e) → TimerSet.erase time e l = (l, 0) := by
  intro l
  induction l with
  | nil => intro _; rfl
  | cons x xs ih =>
    intro h
    have hx : time x ≠ time e := h x (by simp)
    have hxs : ∀ y ∈ xs, time y ≠ time e := fun y hy => h y (by simp [hy])
    by_cases h1 : Compare (time x) (time e) = true
    · simp [TimerSet.erase, h1, ih hxs]
    · by_cases h2 : Compare (time e) (time x) = true
      · simp [TimerSet.erase, h1, h2]
      · exfalso
        exact hx (Compare_total _ _ (by simpa using h1) (by simpa using h2))

/-- C11 as stated fails: the registry holds the timer 0; the timer 1 is not
in it and has the same deadline; `DeleteEvent(1)` removes the timer 0 and
reports success. -/
theorem C11_DeleteEvent_removes_equal_deadline :
    (1 : EventId) ∉ loopOneOfTwoEqual.timers_
    ∧ (0 : EventId) ∈ loopOneOfTwoEqual.timers_
    ∧ (loopOneOfTwoEqual.DeleteEvent 1).1.timers_ = []
    ∧ (loopOneOfTwoEqual.DeleteEvent 1).2 = 0
    ∧ (loopOneOfTwoEqual.DeleteEvent 1).1.timers_ ≠ loopOneOfTwoEqual.timers_ := by
  decide

/-- C11, amended: for every timer registry and every timer event `e` such
that no event held in the registry has the deadline of `e` (in particular `e`
is not held), `DeleteEvent(e)` leaves the registry unchanged and returns 1,
and so does `PeriodicTimerEvent::Stop` on such a timer, apart from clearing
its `running_` flag. -/
theorem C11_DeleteEvent_without_equal_deadline_is_noop (el : EventLoop) (e : EventId)
    (h : ∀ x ∈ el.timers_, el.Time x ≠ el.Time e) :
    e ∉ el.timers_
    ∧ (el.DeleteEvent e).1.timers_ = el.timers_
    ∧ (el.DeleteEvent e).2 = 1
    ∧ (PeriodicTimerEvent.Stop e el).timers_ = el.timers_ := by
  have hk := TimerSet.erase_absent el.Time e el.timers_ h
  refine ⟨fun hm => h e hm rfl, ?_, ?_, ?_⟩
  · show (TimerSet.erase el.Time e el.timers_).1 = el.timers_
    rw [hk]
  · show (if (TimerSet.erase el.Time e el.timers_).2 ≠ 1 then (1 : Int) else 0) = 1
    rw [hk]; simp
  · unfold PeriodicTimerEvent.Stop
    split
    · show (TimerSet.erase (el.SetRunning e false).Time e (el.SetRunning e false).timers_).1
          = el.timers_
      have hT : (el.SetRunning e false).Time = el.Time := by
        funext i
        simp only [EventLoop.Time, EventLoop.SetRunning]
        split
        · rename_i hi; rw [hi]
        · rfl
      rw [hT]
      show (TimerSet.erase el.Time e el.timers_).1 = el.timers_
      rw [hk]
    · rfl

/-- An instance of C11, amended: the timer of deadline 7 s against a registry
holding the timer of deadline 5 s. -/
theorem C11_DeleteEvent_without_equal_deadline_is_noop_witness :
    (((loopBySeconds ⟨9, 0⟩).AddEvent 5).1.DeleteEvent 7).1.timers_ = [5]
    ∧ (((loopBySeconds ⟨9, 0⟩).AddEvent 5).1.DeleteEvent 7).2 = 1 :=
  ⟨(C11_DeleteEvent_without_equal_deadline_is_noop ((loopBySeconds ⟨9, 0⟩).AddEvent 5).1 7
      (by decide)).2.1,
   (C11_DeleteEvent_without_equal_deadline_is_noop ((loopBySeconds ⟨9, 0⟩).AddEvent 5).1 7
      (by decide)).2.2.1⟩

/-! ## The drain pass with callbacks that keep the registry -/

theorem TimeDiff_neg_iff (now tv : timeval) (hn : now.normalised) (ht : tv.normalised)
    (hr : tv.near now) :
    TimeDiff now tv < 0
      ↔ (now.tv_sec < tv.tv_sec ∨ (now.tv_sec = tv.tv_sec ∧ now.tv_usec + 1000 ≤ tv.tv_usec)) := by
  unfold timeval.normalised at hn ht
  unfold timeval.near at hr
  unfold TimeDiff
  rw [tdiv_thousand]
  split
  · rw [toInt32_of_range _ (by omega) (by omega)]; omega
  · rw [toInt32_of_range _ (by omega) (by omega)]; omega

theorem EventLoop.due_congr (el w : EventLoop) (hn : w.now_ = el.now_) (hT : w.Time = el.Time) :
    w.due = el.due := by
  funext e
  simp only [EventLoop.due, hn, hT]

theorem EventLoop.firing_congr (el w : EventLoop) (hT : w.Time = el.Time) :
    w.firing = el.firing := by
  funext e
  simp only [EventLoop.firing, hT]

theorem DoTimeout_nil (OnEvents : Handler) (n : Nat) (el : EventLoop) (hq : el.timers_ = []) :
    el.DoTimeout OnEvents (n + 1) = { n := 0, fired := [], loop := el, finished := true } := by
  rw [EventLoop.DoTimeout]; simp only [hq]

theorem DoTimeout_not_due (OnEvents : Handler) (n : Nat) (el : EventLoop) (ite : EventId)
    (rest : List EventId) (hq : el.timers_ = ite :: rest)
    (hlt : TimeDiff el.now_ (el.Time ite) < 0) :
    el.DoTimeout OnEvents (n + 1) = { n := 0, fired := [], loop := el, finished := true } := by
  rw [EventLoop.DoTimeout]; simp only [hq, hlt, if_true]

theorem DoTimeout_due (OnEvents : Handler) (n : Nat) (el : EventLoop) (ite : EventId)
    (rest : List EventId) (hq : el.timers_ = ite :: rest)
    (hlt : ¬ TimeDiff el.now_ (el.Time ite) < 0) :
    el.DoTimeout OnEvents (n + 1)
      = { n := (EventLoop.DoTimeout OnEvents n (OnEvents ite { el with timers_ := rest })).n + 1,
          fired := ⟨ite, TIMER, el.Time ite⟩
            :: (EventLoop.DoTimeout OnEvents n (OnEvents ite { el with timers_ := rest })).fired,
          loop := (EventLoop.DoTimeout OnEvents n (OnEvents ite { el with timers_ := rest })).loop,
          finished :=
            (EventLoop.DoTimeout OnEvents n (OnEvents ite { el with timers_ := rest })).finished } := by
  rw [EventLoop.DoTimeout]; simp only [hq, hlt, if_false]

theorem DoTimeout_keepsTimers (OnEvents : Handler) (hk : OnEvents.keepsTimers) :
    ∀ (fuel : Nat) (el : EventLoop), el.timers_.length < fuel →
      (el.DoTimeout OnEvents fuel).finished = true
      ∧ (el.DoTimeout OnEvents fuel).fired = (el.timers_.takeWhile el.due).map el.firing
      ∧ (el.DoTimeout OnEvents fuel).n = ((el.timers_.takeWhile el.due).length : Int)
      ∧ (el.DoTimeout OnEvents fuel).loop.timers_ = el.timers_.dropWhile el.due
      ∧ (el.DoTimeout OnEvents fuel).loop.now_ = el.now_
      ∧ (el.DoTimeout OnEvents fuel).loop.Time = el.Time := by
  intro fuel
  induction fuel with
  | zero => intro el h; omega
  | succ n ih =>
    intro el hlen
    cases hq : el.timers_ with
    | nil =>
      rw [DoTimeout_nil OnEvents n el hq]
      simp [hq]
    | cons ite rest =>
      by_cases hlt : TimeDiff el.now_ (el.Time ite) < 0
      · have hd : el.due ite = false := by simp [EventLoop.due, hlt]
        rw [DoTimeout_not_due OnEvents n el ite rest hq hlt]
        simp [hq, hd]
      · have hd : el.due ite = true := by simp [EventLoop.due, hlt]
        obtain ⟨k1, k2, k3⟩ := hk ite { el with timers_ := rest }
        have k2' : (OnEvents ite { el with timers_ := rest }).now_ = el.now_ := k2
        have k3' : (OnEvents ite { el with timers_ := rest }).Time = el.Time := k3
        have k1' : (OnEvents ite { el with timers_ := rest }).timers_ = rest := k1
        have hlen2 : (OnEvents ite { el with timers_ := rest }).timers_.length < n := by
          rw [k1']; rw [hq] at hlen; simp at hlen; omega
        obtain ⟨i1, i2, i3, i4, i5, i6⟩ := ih _ hlen2
        have hdue : (OnEvents ite { el with timers_ := rest }).due = el.due :=
          EventLoop.due_congr _ _ k2' k3'
        have hfir : (OnEvents ite { el with timers_ := rest }).firing = el.firing :=
          EventLoop.firing_congr _ _ k3'
        rw [DoTimeout_due OnEvents n el ite rest hq hlt]
        simp only [i1, i2, i3, i4, i5, i6, k1', k2', k3', hdue, hfir, List.takeWhile_cons, hd,
          List.dropWhile_cons, if_true, List.map_cons, List.length_cons]
        refine ⟨trivial, ?_, ?_, trivial, trivial, trivial⟩
        · simp [EventLoop.firing]
        · push_cast; ring

theorem takeWhile_eq_filter_of_ordered (time : EventId → timeval) (p : EventId → Bool) :
    ∀ l : List EventId, TimerSet.ordered time l →
      (∀ a ∈ l, ∀ b ∈ l, Compare (time a) (time b) = true → p b = true → p a = true) →
      l.takeWhile p = l.filter p ∧ l.dropWhile p = l.filter (fun e => !p e) := by
  intro l
  induction l with
  | nil => intro _ _; simp
  | cons x xs ih =>
    intro hord hmono
    have hx := (List.pairwise_cons.mp hord).1
    have hxs := (List.pairwise_cons.mp hord).2
    have hmono2 : ∀ a ∈ xs, ∀ b ∈ xs, Compare (time a) (time b) = true → p b = true →
        p a = true :=
      fun a ha b hb => hmono a (by simp [ha]) b (by simp [hb])
    obtain ⟨i1, i2⟩ := ih hxs hmono2
    by_cases hp : p x = true
    · simp [List.takeWhile_cons, List.dropWhile_cons, List.filter_cons, hp, i1, i2]
    · have hnone : ∀ y ∈ xs, p y = false := by
        intro y hy
        by_contra hpy
        exact hp (hmono x (by simp) y (by simp [hy]) (hx y hy) (by simpa using hpy))
      have hf : xs.filter p = [] := by
        rw [List.filter_eq_nil_iff]
        intro y hy; simp [hnone y hy]
      have hg : xs.filter (fun e => !p e) = xs := by
        rw [List.filter_eq_self]
        intro y hy; simp [hnone y hy]
      simp [List.takeWhile_cons, List.dropWhile_cons, List.filter_cons, hp, hf, hg]

theorem ordered_nodup (time : EventId → timeval) (l : List EventId)
    (h : TimerSet.ordered time l) : l.Nodup := by
  unfold TimerSet.ordered at h
  refine List.Pairwise.imp ?_ h
  intro a b hab heq
  rw [heq, Compare_irrefl] at hab
  exact Bool.false_ne_true hab

theorem due_monotone (el : EventLoop) (hn : el.now_.normalised)
    (hreg : ∀ e ∈ el.timers_, (el.Time e).normalised ∧ (el.Time e).near el.now_) :
    ∀ a ∈ el.timers_, ∀ b ∈ el.timers_, Compare (el.Time a) (el.Time b) = true →
      el.due b = true → el.due a = true := by
  intro a ha b hb hab hdb
  have h1 := TimeDiff_neg_iff el.now_ (el.Time a) hn (hreg a ha).1 (hreg a ha).2
  have h2 := TimeDiff_neg_iff el.now_ (el.Time b) hn (hreg b hb).1 (hreg b hb).2
  simp only [EventLoop.due, decide_eq_true_eq] at hdb ⊢
  simp only [Compare, Bool.or_eq_true, Bool.and_eq_true, decide_eq_true_eq] at hab
  rw [h1]
  rw [h2] at hdb
  omega

/-- C12 as stated fails in its count: with `now_` = 0 s and one timer of
deadline 500 microseconds (distinct deadlines, normalised timevals, a callback
that does nothing) no timer has a deadline <= `now_`, yet `DoTimeout` fires
the timer and returns 1. -/
theorem C12_count_includes_timer_not_yet_due :
    ((loopWithTimer ⟨0, 0⟩ ⟨0, 500⟩).timers_.filter
        (fun e => decide (¬ ((loopWithTimer ⟨0, 0⟩ ⟨0, 500⟩).Time e).later
          (loopWithTimer ⟨0, 0⟩ ⟨0, 500⟩).now_))).length = 0
    ∧ ((loopWithTimer ⟨0, 0⟩ ⟨0, 500⟩).DoTimeout noCallback 2).finished = true
    ∧ ((loopWithTimer ⟨0, 0⟩ ⟨0, 500⟩).DoTimeout noCallback 2).n = 1
    ∧ ((loopWithTimer ⟨0, 0⟩ ⟨0, 500⟩).DoTimeout noCallback 2).fired
        = [⟨0, TIMER, ⟨0, 500⟩⟩] := by
  decide

/-- C12, amended: for a registry in the order of the container (distinct
deadlines), normalised timevals with the deadlines within 2147482 s of
`now_`, and callbacks that do not touch the registry, `DoTimeout` returns
within one iteration per timer; it has then fired, once each and with the
TIMER mask, exactly the timers with `TimeDiff(now_, deadline) >= 0`, which
are removed, and the returned count is their number. Every timer with
deadline <= `now_` is among them, so none remains and each was invoked
exactly once; every timer that remains has a deadline later than `now_`. The
count can exceed the number of timers with deadline <= `now_` by the timers
whose deadline is less than 1 ms later than `now_` in the same second. -/
theorem C12_DoTimeout_removes_every_due_timer (OnEvents : Handler)
    (hk : OnEvents.keepsTimers) (fuel : Nat) (el : EventLoop)
    (hfuel : el.timers_.length < fuel) (hord : TimerSet.ordered el.Time el.timers_)
    (hn : el.now_.normalised)
    (hreg : ∀ e ∈ el.timers_, (el.Time e).normalised ∧ (el.Time e).near el.now_) :
    (el.DoTimeout OnEvents fuel).finished = true
    ∧ (el.DoTimeout OnEvents fuel).fired = (el.timers_.filter el.due).map el.firing
    ∧ (el.DoTimeout OnEvents fuel).loop.timers_ = el.timers_.filter (fun e => !el.due e)
    ∧ (el.DoTimeout OnEvents fuel).n = ((el.timers_.filter el.due).length : Int)
    ∧ (∀ e ∈ el.timers_, ¬ (el.Time e).later el.now_ →
        e ∉ (el.DoTimeout OnEvents fuel).loop.timers_
        ∧ ((el.DoTimeout OnEvents fuel).fired.map Fired.event).count e = 1
        ∧ el.firing e ∈ (el.DoTimeout OnEvents fuel).fired)
    ∧ (∀ e ∈ (el.DoTimeout OnEvents fuel).loop.timers_, (el.Time e).later el.now_) := by
  obtain ⟨d1, d2, d3, d4, _, _⟩ := DoTimeout_keepsTimers OnEvents hk fuel el hfuel
  obtain ⟨f1, f2⟩ := takeWhile_eq_filter_of_ordered el.Time el.due el.timers_ hord
    (due_monotone el hn hreg)
  rw [f1] at d2 d3
  rw [f2] at d4
  have hdue : ∀ e ∈ el.timers_, ¬ (el.Time e).later el.now_ → el.due e = true := by
    intro e he hl
    have h1 := TimeDiff_neg_iff el.now_ (el.Time e) hn (hreg e he).1 (hreg e he).2
    simp only [EventLoop.due, decide_eq_true_eq]
    rw [h1]
    unfold timeval.later at hl
    omega
  have hlater : ∀ e ∈ el.timers_, el.due e = false → (el.Time e).later el.now_ := by
    intro e he hd
    have h1 := TimeDiff_neg_iff el.now_ (el.Time e) hn (hreg e he).1 (hreg e he).2
    simp only [EventLoop.due, decide_eq_false_iff_not, not_not] at hd
    rw [h1] at hd
    unfold timeval.later
    have := (hreg e he).1
    unfold timeval.normalised at this hn
    omega
  have hev : (el.DoTimeout OnEvents fuel).fired.map Fired.event = el.timers_.filter el.due := by
    rw [d2, List.map_map]
    have : (Fired.event ∘ el.firing) = id := by
      funext e; rfl
    rw [this, List.map_id]
  refine ⟨d1, d2, d4, d3, ?_, ?_⟩
  · intro e he hl
    have hd := hdue e he hl
    refine ⟨?_, ?_, ?_⟩
    · rw [d4]; simp [hd]
    · rw [hev]
      exact List.count_eq_one_of_mem ((ordered_nodup el.Time el.timers_ hord).filter _)
        (List.mem_filter.mpr ⟨he, hd⟩)
    · rw [d2]
      exact List.mem_map.mpr ⟨e, List.mem_filter.mpr ⟨he, hd⟩, rfl⟩
  · intro e he
    rw [d4] at he
    obtain ⟨he1, he2⟩ := List.mem_filter.mp he
    exact hlater e he1 (by simpa using he2)

/-- An instance of C12, amended: timers of deadline 1 s, 2 s and 7 s drained at
`now_` = 5 s. -/
theorem C12_DoTimeout_removes_every_due_timer_witness :
    (EventLoop.DoTimeout noCallback 4 ((loopBySeconds ⟨5, 0⟩).AddAll [7, 1, 2])).fired
      = [⟨1, TIMER, ⟨1, 0⟩⟩, ⟨2, TIMER, ⟨2, 0⟩⟩]
    ∧ (EventLoop.DoTimeout noCallback 4 ((loopBySeconds ⟨5, 0⟩).AddAll [7, 1, 2])).loop.timers_
      = [7]
    ∧ (EventLoop.DoTimeout noCallback 4 ((loopBySeconds ⟨5, 0⟩).AddAll [7, 1, 2])).n = 2 :=
  ⟨(C12_DoTimeout_removes_every_due_timer noCallback (fun _ _ => ⟨rfl, rfl, rfl⟩) 4
      ((loopBySeconds ⟨5, 0⟩).AddAll [7, 1, 2]) (by decide) (by decide) (by decide)
      (by decide)).2.1,
   (C12_DoTimeout_removes_every_due_timer noCallback (fun _ _ => ⟨rfl, rfl, rfl⟩) 4
      ((loopBySeconds ⟨5, 0⟩).AddAll [7, 1, 2]) (by decide) (by decide) (by decide)
      (by decide)).2.2.1,
   (C12_DoTimeout_removes_every_due_timer noCallback (fun _ _ => ⟨rfl, rfl, rfl⟩) 4
      ((loopBySeconds ⟨5, 0⟩).AddAll [7, 1, 2]) (by decide) (by decide) (by decide)
      (by decide)).2.2.2.1⟩

/-! ## The order of the registry and of the drain -/

theorem TimerSet.insert_ordered (time : EventId → timeval) (e : EventId) :
    ∀ l : List EventId, TimerSet.ordered time l →
      TimerSet.ordered time (TimerSet.insert time e l).1 := by
  intro l
  induction l with
  | nil => intro _; simp [TimerSet.insert, TimerSet.ordered]
  | cons x xs ih =>
    intro h
    have hx := (List.pairwise_cons.mp h).1
    have hxs := (List.pairwise_cons.mp h).2
    by_cases h1 : Compare (time x) (time e) = true
    · simp only [TimerSet.insert, h1, if_true]
      refine List.pairwise_cons.mpr ⟨?_, ih hxs⟩
      intro y hy
      rcases TimerSet.insert_mem time e y xs hy with hy | hy
      · rw [hy]; exact h1
      · exact hx y hy
    · by_cases h2 : Compare (time e) (time x) = true
      · simp only [TimerSet.insert, h1, h2, if_true, if_false]
        refine List.pairwise_cons.mpr ⟨?_, h⟩
        intro y hy
        rcases List.mem_cons.mp hy with hy | hy
        · rw [hy]; exact h2
        · exact Compare_trans _ _ _ h2 (hx y hy)
      · simp only [TimerSet.insert, h1, h2, if_false]
        exact h

theorem TimerSet.erase_sublist (time : EventId → timeval) (e : EventId) :
    ∀ l : List EventId, (TimerSet.erase time e l).1.Sublist l := by
  intro l
  induction l with
  | nil => simp [TimerSet.erase]
  | cons x xs ih =>
    by_cases h1 : Compare (time x) (time e) = true
    · simp only [TimerSet.erase, h1, if_true]
      exact ih.cons₂ x
    · by_cases h2 : Compare (time e) (time x) = true
      · simp only [TimerSet.erase, h1, h2, if_true, if_false]
        exact List.Sublist.refl _
      · simp only [TimerSet.erase, h1, h2, if_false]
        exact List.sublist_cons_self x xs

theorem TimerSet.insert_perm (time : EventId → timeval) (e : EventId) :
    ∀ l : List EventId, (∀ x ∈ l, time x ≠ time e) →
      (TimerSet.insert time e l).1.Perm (e :: l) := by
  intro l
  induction l with
  | nil => intro _; simp [TimerSet.insert]
  | cons x xs ih =>
    intro h
    have hx : time x ≠ time e := h x (by simp)
    have hxs : ∀ y ∈ xs, time y ≠ time e := fun y hy => h y (by simp [hy])
    by_cases h1 : Compare (time x) (time e) = true
    · simp only [TimerSet.insert, h1, if_true]
      exact ((ih hxs).cons x).trans (List.Perm.swap e x xs)
    · by_cases h2 : Compare (time e) (time x) = true
      · simp only [TimerSet.insert, h1, h2, if_true, if_false]
        exact List.Perm.refl _
      · exfalso
        exact hx (Compare_total _ _ (by simpa using h1) (by simpa using h2))

theorem AddAll_Time (es : List EventId) :
    ∀ el : EventLoop, (el.AddAll es).Time = el.Time ∧ (el.AddAll es).now_ = el.now_ := by
  induction es with
  | nil => intro el; exact ⟨rfl, rfl⟩
  | cons e es ih =>
    intro el
    have h := ih (el.AddEvent e).1
    exact ⟨h.1, h.2⟩

theorem AddAll_ordered (es : List EventId) :
    ∀ el : EventLoop, TimerSet.ordered el.Time el.timers_ →
      TimerSet.ordered (el.AddAll es).Time (el.AddAll es).timers_ := by
  induction es with
  | nil => intro el h; exact h
  | cons e es ih =>
    intro el h
    exact ih (el.AddEvent e).1 (TimerSet.insert_ordered el.Time e el.timers_ h)

theorem AddAll_perm (es : List EventId) :
    ∀ el : EventLoop, es.Pairwise (fun a b => el.Time a ≠ el.Time b) →
      (∀ e ∈ es, ∀ x ∈ el.timers_, el.Time x ≠ el.Time e) →
      (el.AddAll es).timers_.Perm (es.reverse ++ el.timers_) := by
  induction es with
  | nil => intro el _ _; exact List.Perm.refl _
  | cons e es ih =>
    intro el hp hfresh
    have hpe := (List.pairwise_cons.mp hp).1
    have hpes := (List.pairwise_cons.mp hp).2
    have hins : (el.AddEvent e).1.timers_.Perm (e :: el.timers_) :=
      TimerSet.insert_perm el.Time e el.timers_ (fun x hx => hfresh e (by simp) x hx)
    have hfresh2 : ∀ a ∈ es, ∀ x ∈ (el.AddEvent e).1.timers_,
        (el.AddEvent e).1.Time x ≠ (el.AddEvent e).1.Time a := by
      intro a ha x hx
      rcases List.mem_cons.mp (hins.subset hx) with hxe | hxl
      · rw [hxe]; exact hpe a ha
      · exact hfresh a (by simp [ha]) x hxl
    have h := ih (el.AddEvent e).1 hpes hfresh2
    refine h.trans ?_
    rw [List.reverse_cons, List.append_assoc]
    exact List.Perm.append_left _ hins

theorem Handler.keepsTimers.keepsOrder (h : Handler) (hk : h.keepsTimers) : h.keepsOrder := by
  intro e w _ hord
  obtain ⟨k1, _, k3⟩ := hk e w
  rw [k1, k3]; exact hord

theorem PeriodicTimerEvent.OnEvents_keepsOrder (OnTimer : Handler) (hk : OnTimer.keepsTimers) :
    Handler.keepsOrder (PeriodicTimerEvent.OnEvents OnTimer) := by
  intro e w he hord
  obtain ⟨k1, _, k3⟩ := hk e w
  unfold PeriodicTimerEvent.OnEvents
  show TimerSet.ordered
      ((OnTimer e w).SetTime e (TimeAdd (OnTimer e w).now_ ((OnTimer e w).heap e).interval_)).Time
      (TimerSet.insert
        ((OnTimer e w).SetTime e (TimeAdd (OnTimer e w).now_ ((OnTimer e w).heap e).interval_)).Time
        e (TimerSet.erase
          ((OnTimer e w).SetTime e
            (TimeAdd (OnTimer e w).now_ ((OnTimer e w).heap e).interval_)).Time
          e (OnTimer e w).timers_).1).1
  apply TimerSet.insert_ordered
  refine List.Pairwise.sublist (TimerSet.erase_sublist _ _ _) ?_
  rw [k1]
  have hT : ∀ x ∈ w.timers_,
      ((OnTimer e w).SetTime e (TimeAdd (OnTimer e w).now_ ((OnTimer e w).heap e).interval_)).Time x
        = w.Time x := by
    intro x hx
    have hne : x ≠ e := fun hxe => he (hxe ▸ hx)
    have : (OnTimer e w).Time x = w.Time x := by rw [k3]
    simpa [EventLoop.Time, EventLoop.SetTime, hne] using this
  unfold TimerSet.ordered at hord
  refine List.Pairwise.imp_of_mem ?_ hord
  intro a b ha hb hab
  rw [hT a ha, hT b hb]; exact hab

theorem DoTimeout_entered_absent (OnEvents : Handler) (hord : OnEvents.keepsOrder) :
    ∀ (fuel : Nat) (el : EventLoop), TimerSet.ordered el.Time el.timers_ →
      ∀ p ∈ DoTimeout.entered OnEvents fuel el, p.1 ∉ p.2 := by
  intro fuel
  induction fuel with
  | zero => intro el _ p hp; simp [DoTimeout.entered] at hp
  | succ n ih =>
    intro el ho p hp
    unfold DoTimeout.entered at hp
    cases hq : el.timers_ with
    | nil => simp [hq] at hp
    | cons ite rest =>
      rw [hq] at ho
      have hnd := ordered_nodup el.Time (ite :: rest) ho
      have hnot : ite ∉ rest := (List.nodup_cons.mp hnd).1
      by_cases hlt : TimeDiff el.now_ (el.Time ite) < 0
      · simp [hq, hlt] at hp
      · simp only [hq, hlt, if_false, List.mem_cons] at hp
        rcases hp with hp | hp
        · rw [hp]; exact hnot
        · exact ih _ (hord ite { el with timers_ := rest } hnot (List.pairwise_cons.mp ho).2) p hp

theorem DoTimeout_entered_events (OnEvents : Handler) :
    ∀ (fuel : Nat) (el : EventLoop),
      (DoTimeout.entered OnEvents fuel el).map Prod.fst
        = (el.DoTimeout OnEvents fuel).fired.map Fired.event := by
  intro fuel
  induction fuel with
  | zero => intro el; simp [DoTimeout.entered, EventLoop.DoTimeout]
  | succ n ih =>
    intro el
    cases hq : el.timers_ with
    | nil => rw [DoTimeout_nil OnEvents n el hq]; simp [DoTimeout.entered, hq]
    | cons ite rest =>
      by_cases hlt : TimeDiff el.now_ (el.Time ite) < 0
      · rw [DoTimeout_not_due OnEvents n el ite rest hq hlt]
        simp [DoTimeout.entered, hq, hlt]
      · rw [DoTimeout_due OnEvents n el ite rest hq hlt]
        simp [DoTimeout.entered, hq, hlt, ih]

theorem DoTimeout_fired_ascending (OnEvents : Handler) (hk : OnEvents.keepsTimers) :
    ∀ (fuel : Nat) (el : EventLoop), TimerSet.ordered el.Time el.timers_ →
      (∀ f ∈ (el.DoTimeout OnEvents fuel).fired, f.event ∈ el.timers_ ∧ f.time = el.Time f.event)
      ∧ (el.DoTimeout OnEvents fuel).fired.Pairwise (fun f g => Compare f.time g.time = true) := by
  intro fuel
  induction fuel with
  | zero => intro el _; simp [EventLoop.DoTimeout]
  | succ n ih =>
    intro el ho
    cases hq : el.timers_ with
    | nil => rw [DoTimeout_nil OnEvents n el hq]; simp
    | cons ite rest =>
      by_cases hlt : TimeDiff el.now_ (el.Time ite) < 0
      · rw [DoTimeout_not_due OnEvents n el ite rest hq hlt]; simp
      · rw [DoTimeout_due OnEvents n el ite rest hq hlt]
        rw [hq] at ho
        obtain ⟨k1, _, k3⟩ := hk ite { el with timers_ := rest }
        have k1' : (OnEvents ite { el with timers_ := rest }).timers_ = rest := k1
        have k3' : (OnEvents ite { el with timers_ := rest }).Time = el.Time := k3
        have ho2 : TimerSet.ordered (OnEvents ite { el with timers_ := rest }).Time
            (OnEvents ite { el with timers_ := rest }).timers_ := by
          rw [k1', k3']; exact (List.pairwise_cons.mp ho).2
        obtain ⟨i1, i2⟩ := ih _ ho2
        simp only [k1', k3'] at i1
        refine ⟨?_, ?_⟩
        · intro f hf
          rcases List.mem_cons.mp hf with hf | hf
          · rw [hf]; exact ⟨by simp, rfl⟩
          · exact ⟨by simp [(i1 f hf).1], (i1 f hf).2⟩
        · refine List.pairwise_cons.mpr ⟨?_, i2⟩
          intro g hg
          rw [(i1 g hg).2]
          exact (List.pairwise_cons.mp ho).1 _ (i1 g hg).1

theorem Compare_asymm (a b : timeval) (h : Compare a b = true) : Compare b a = false := by
  simp only [Compare, Bool.or_eq_true, Bool.and_eq_true, decide_eq_true_eq] at h
  simp only [Compare, Bool.or_eq_false_iff, Bool.and_eq_false_iff, decide_eq_false_iff_not]
  omega

/-! ## Re-arming a periodic timer -/

theorem tdiv_million (a : Int) (h0 : 0 ≤ a) : a.tdiv 1000000 = a / 1000000 := by
  rw [Int.tdiv_eq_ediv] <;> omega

theorem tmod_million (a : Int) (h0 : 0 ≤ a) : a.tmod 1000000 = a % 1000000 := by
  rw [Int.tmod_eq_emod] <;> omega

theorem toInt64_of_range (x : Int) (h1 : -9223372036854775808 ≤ x)
    (h2 : x < 9223372036854775808) : toInt64 x = x := by
  unfold toInt64; omega

/-- The additions of `TimeAdd` are those of 64-bit fields: one second added
to the largest `time_t` does not give the sum. -/
theorem TimeAdd_wraps_past_LONG_MAX :
    TimeAdd ⟨9223372036854775807, 0⟩ ⟨1, 0⟩ = ⟨-9223372036854775808, 0⟩ := by
  decide

/-- The re-arming of C20 when the new deadline is that of a registered timer:
the timer 0 is re-armed for 12.3 s, the deadline of the timer 1, which
`UpdateEvent` erases; the timer 2 stays. -/
theorem rearm_erases_timer_of_equal_deadline :
    (loopWithOthers ⟨12, 300000⟩).timers_ = [1, 2]
    ∧ (PeriodicTimerEvent.OnEvents noCallback 0 (loopWithOthers ⟨12, 300000⟩)).Time 0
        = ⟨12, 300000⟩
    ∧ (PeriodicTimerEvent.OnEvents noCallback 0 (loopWithOthers ⟨12, 300000⟩)).timers_
        = [0, 2] := by
  decide

/-! ## ProcessEvents and StartLoop -/

/-- C14, evaluated on the code: the poll fails (`epoll_wait` returns -1) and
no timer is registered; `ProcessEvents` invokes no callback at all and
returns -1, not 0. -/
theorem C14_failed_wait_returns_minus_one :
    (EventLoop.ProcessEvents noCallback noFileCallback 1 (loopBySeconds ⟨5, 0⟩) (-1) []
        ⟨5, 0⟩).finished = true
    ∧ (EventLoop.ProcessEvents noCallback noFileCallback 1 (loopBySeconds ⟨5, 0⟩) (-1) []
        ⟨5, 0⟩).fired = []
    ∧ (EventLoop.ProcessEvents noCallback noFileCallback 1 (loopBySeconds ⟨5, 0⟩) (-1) []
        ⟨5, 0⟩).dispatched = []
    ∧ (EventLoop.ProcessEvents noCallback noFileCallback 1 (loopBySeconds ⟨5, 0⟩) (-1) []
        ⟨5, 0⟩).ret = -1 := by
  decide

theorem ProcessEvents.dispatch_trace (OnEvents : IOHandler) :
    ∀ (evs : List epoll_event) (el : EventLoop),
      (ProcessEvents.dispatch OnEvents evs el).1
        = evs.map (fun ev => (ev.ptr, ProcessEvents.mask ev.events)) := by
  intro evs
  induction evs with
  | nil => intro el; rfl
  | cons ev evs ih =>
    intro el
    simp only [ProcessEvents.dispatch, List.map_cons, ih]

theorem DoTimeout_count (OnEvents : Handler) :
    ∀ (fuel : Nat) (el : EventLoop),
      (el.DoTimeout OnEvents fuel).n = ((el.DoTimeout OnEvents fuel).fired.length : Int) := by
  intro fuel
  induction fuel with
  | zero => intro el; simp [EventLoop.DoTimeout]
  | succ n ih =>
    intro el
    cases hq : el.timers_ with
    | nil => rw [DoTimeout_nil OnEvents n el hq]; simp
    | cons ite rest =>
      by_cases hlt : TimeDiff el.now_ (el.Time ite) < 0
      · rw [DoTimeout_not_due OnEvents n el ite rest hq hlt]; simp
      · rw [DoTimeout_due OnEvents n el ite rest hq hlt]
        simp only [ih, List.length_cons]
        push_cast; ring

/-- When the poll succeeded with `n` entries stored, the return value of
`ProcessEvents` is the number of callbacks it invoked. -/
theorem ProcessEvents_count_of_successful_wait (OnTimerEvents : Handler)
    (OnFileEvents : IOHandler) (fuel : Nat) (el : EventLoop) (n : Int)
    (evs : List epoll_event) (tv : timeval) (h0 : 0 ≤ n) (hn : n.toNat ≤ evs.length)
    (hfin : (el.ProcessEvents OnTimerEvents OnFileEvents fuel n evs tv).finished = true) :
    (el.ProcessEvents OnTimerEvents OnFileEvents fuel n evs tv).ret
      = ((el.ProcessEvents OnTimerEvents OnFileEvents fuel n evs tv).fired.length : Int)
        + ((el.ProcessEvents OnTimerEvents OnFileEvents fuel n evs tv).dispatched.length : Int) := by
  unfold EventLoop.ProcessEvents at hfin ⊢
  by_cases hd : (EventLoop.DoTimeout OnTimerEvents fuel { el with now_ := tv }).finished = true
  · simp only [hd, if_true]
    rw [ProcessEvents.dispatch_trace, DoTimeout_count]
    simp only [List.length_map, List.length_take]
    rw [Nat.min_eq_left hn]
    omega
  · simp [hd] at hfin

/-- C16, evaluated on the code: `epoll_ctl` fails with -1, `AddEvent(IOEvent *)`
returns -1 and `AddEvent(BufferIOEvent *)` returns 0; the timer 1 has the
deadline of the timer 0 that the registry holds, `AddEvent(TimerEvent *)`
returns 1 and `AddEvent(PeriodicTimerEvent *)` returns 0 with the timer 1 not
in the registry. -/
theorem C16_composite_AddEvent_returns_zero_on_failure :
    (EventLoop.AddIOEvent 5 (-1)).2 = -1
    ∧ (EventLoop.AddBufferIOEvent 5 (-1)).2 = 0
    ∧ (loopOneOfTwoEqual.AddEvent 1).2 = 1
    ∧ (loopOneOfTwoEqual.AddPeriodicTimerEvent 1).2 = 0
    ∧ (1 : EventId) ∉ (loopOneOfTwoEqual.AddPeriodicTimerEvent 1).1.timers_ := by
  decide

theorem PtrSet.mem_insert (e x : EventId) (l : List EventId) :
    x ∈ PtrSet.insert e l ↔ x = e ∨ x ∈ l := by
  unfold PtrSet.insert
  split
  · rename_i h
    constructor
    · intro hx; exact Or.inr hx
    · intro hx
      rcases hx with hx | hx
      · rw [hx]; exact h
      · exact hx
  · simp [List.mem_orderedInsert]

theorem PtrSet.nodup_insert (e : EventId) (l : List EventId) (h : l.Nodup) :
    (PtrSet.insert e l).Nodup := by
  unfold PtrSet.insert
  split
  · exact h
  · rename_i hne
    exact (List.perm_orderedInsert (fun a b => a ≤ b) e l).nodup_iff.mpr
      (List.nodup_cons.mpr ⟨hne, h⟩)

theorem PtrSet.mem_erase (e x : EventId) (l : List EventId) (h : l.Nodup) :
    x ∈ PtrSet.erase e l ↔ x ≠ e ∧ x ∈ l := by
  unfold PtrSet.erase
  exact List.Nodup.mem_erase_iff h

theorem PtrSet.nodup_erase (e : EventId) (l : List EventId) (h : l.Nodup) :
    (PtrSet.erase e l).Nodup := by
  unfold PtrSet.erase
  exact h.erase e

theorem SignalManager.step_registered (Signal : EventId → Int) (m : SignalManager)
    (r : EventId → Bool) (op : SigOp)
    (h : ∀ s, (m.sig_events_ s).Nodup ∧ ∀ x, x ∈ m.sig_events_ s ↔ (Signal x = s ∧ r x = true)) :
    ∀ s, ((m.step Signal op).sig_events_ s).Nodup
      ∧ ∀ x, x ∈ (m.step Signal op).sig_events_ s ↔ (Signal x = s ∧ op.register r x = true) := by
  intro s
  cases op with
  | Add e =>
    simp only [SignalManager.step, SignalManager.AddEvent, SigOp.register]
    by_cases hs : s = Signal e
    · simp only [hs, if_true]
      refine ⟨PtrSet.nodup_insert e _ (h _).1, ?_⟩
      intro x
      rw [PtrSet.mem_insert, (h _).2 x]
      by_cases hx : x = e
      · simp [hx]
      · simp [hx]
    · simp only [hs, if_false]
      refine ⟨(h s).1, ?_⟩
      intro x
      rw [(h s).2 x]
      by_cases hx : x = e
      · rw [hx]
        constructor
        · intro hh; exact absurd hh.1.symm hs
        · intro hh; exact absurd hh.1.symm hs
      · simp [hx]
  | Delete e =>
    simp only [SignalManager.step, SignalManager.DeleteEvent, SigOp.register]
    by_cases hs : s = Signal e
    · simp only [hs, if_true]
      refine ⟨PtrSet.nodup_erase e _ (h _).1, ?_⟩
      intro x
      rw [PtrSet.mem_erase e x _ (h _).1, (h _).2 x]
      by_cases hx : x = e
      · simp [hx]
      · simp [hx]
    · simp only [hs, if_false]
      refine ⟨(h s).1, ?_⟩
      intro x
      rw [(h s).2 x]
      by_cases hx : x = e
      · rw [hx]
        constructor
        · intro hh; exact absurd hh.1.symm hs
        · intro hh; exact absurd hh.1.symm hs
      · simp [hx]
  | Update e =>
    simp only [SignalManager.step, SignalManager.UpdateEvent, SigOp.register]
    by_cases hs : s = Signal e
    · simp only [hs, if_true]
      refine ⟨PtrSet.nodup_insert e _ (PtrSet.nodup_erase e _ (h _).1), ?_⟩
      intro x
      rw [PtrSet.mem_insert, PtrSet.mem_erase e x _ (h _).1, (h _).2 x]
      by_cases hx : x = e
      · simp [hx]
      · simp [hx]
    · simp only [hs, if_false]
      refine ⟨(h s).1, ?_⟩
      intro x
      rw [(h s).2 x]
      by_cases hx : x = e
      · rw [hx]
        constructor
        · intro hh; exact absurd hh.1.symm hs
        · intro hh; exact absurd hh.1.symm hs
      · simp [hx]

theorem SignalManager.run_registered (Signal : EventId → Int) :
    ∀ (ops : List SigOp) (m : SignalManager) (r : EventId → Bool),
      (∀ s, (m.sig_events_ s).Nodup ∧ ∀ x, x ∈ m.sig_events_ s ↔ (Signal x = s ∧ r x = true)) →
      ∀ s, ((m.run Signal ops).sig_events_ s).Nodup
        ∧ ∀ x, x ∈ (m.run Signal ops).sig_events_ s
            ↔ (Signal x = s ∧ ops.foldl SigOp.register r x = true) := by
  intro ops
  induction ops with
  | nil => intro m r h; exact h
  | cons op ops ih =>
    intro m r h
    exact ih (m.step Signal op) (op.register r) (SignalManager.step_registered Signal m r op h)

/-- C18: after any sequence of `AddEvent`, `DeleteEvent` and `UpdateEvent`
calls on the `SignalManager`, the events keeping their signal numbers,
`SignalHandler(s)` invokes exactly once, with the argument `s`, every event
that is registered and has the signal number `s`, and it invokes nothing
else: no unregistered event, no event of another signal number, no other
argument. -/
theorem C18_SignalHandler_invokes_registered_handlers (Signal : EventId → Int)
    (ops : List SigOp) (s : Int) :
    (∀ e, ((SignalHandler (SignalManager.empty.run Signal ops) s).map Prod.fst).count e
        = if Signal e = s ∧ registeredAfter ops e = true then 1 else 0)
    ∧ (∀ e a, (e, a) ∈ SignalHandler (SignalManager.empty.run Signal ops) s →
        a = s ∧ Signal e = s ∧ registeredAfter ops e = true) := by
  have h0 : ∀ s', (SignalManager.empty.sig_events_ s').Nodup
      ∧ ∀ x, x ∈ SignalManager.empty.sig_events_ s'
          ↔ (Signal x = s' ∧ (fun _ => false) x = true) := by
    intro s'
    simp [SignalManager.empty]
  obtain ⟨hnd, hmem⟩ := SignalManager.run_registered Signal ops SignalManager.empty
    (fun _ => false) h0 s
  have hfst : (SignalHandler (SignalManager.empty.run Signal ops) s).map Prod.fst
      = (SignalManager.empty.run Signal ops).sig_events_ s := by
    unfold SignalHandler
    rw [List.map_map]
    have : (Prod.fst ∘ fun e : EventId => (e, s)) = id := by
      funext e; rfl
    rw [this, List.map_id]
  refine ⟨?_, ?_⟩
  · intro e
    rw [hfst]
    by_cases hc : Signal e = s ∧ registeredAfter ops e = true
    · rw [if_pos hc]
      exact List.count_eq_one_of_mem hnd ((hmem e).mpr hc)
    · rw [if_neg hc]
      exact List.count_eq_zero_of_not_mem (fun h => hc ((hmem e).mp h))
  · intro e a h
    unfold SignalHandler at h
    rw [List.mem_map] at h
    obtain ⟨x, hx, hxe⟩ := h
    obtain ⟨h1, h2⟩ := Prod.mk.inj hxe
    rw [← h1, ← h2]
    exact ⟨rfl, (hmem x).mp hx⟩

/-! ## The write path after a short write -/

/-- C19 as stated fails: "ab" is queued and the descriptor takes one byte per
write. On WRITE readiness the first write is short (1 of 2 bytes), and within
the same call of `OnEvents` a second write is made, from offset 1. -/
theorem C19_OnEvents_writes_again_after_short_write :
    (oneQueued.SendData oneByOne 0).calls = [Call.Written ['a']]
    ∧ (oneQueued.SendData oneByOne 0).self.sent_ = 1
    ∧ oneQueued.OnEvents oneByOne 2 WRITE 0 [] 0
        = some ⟨{ oneQueued with events_ := 5, sendbuf_list_ := [] }, 2,
            [Call.Written ['a'], Call.Written ['b'], Call.UpdateEvent 5,
              Call.OnSent ['a', 'b']]⟩ := by
  decide

theorem toInt32_nonneg_of_small (x : Nat) (h : x < 2147483648) : ¬ toInt32 (x : Int) < 0 := by
  unfold toInt32; omega

theorem SendData.loop_writes (env : Writes) (torecv_ : Nat) (recvbuf_ : Bytes) :
    ∀ (queue : List Bytes) (sent_ events_ total k : Nat),
      k ≤ (SendData.loop env torecv_ recvbuf_ queue sent_ events_ total k).writes := by
  intro queue
  induction queue with
  | nil => intro sent_ events_ total k; simp [SendData.loop]
  | cons b rest ih =>
    intro sent_ events_ total k
    rw [SendData.loop]
    dsimp only
    cases env k with
    | none => simp
    | some room =>
      dsimp only
      split
      · exact Nat.le_trans (Nat.le_succ k) (ih _ _ _ _)
      · simp

theorem SendData.loop_writes_cons (env : Writes) (torecv_ : Nat) (recvbuf_ : Bytes)
    (b : Bytes) (rest : List Bytes) (sent_ events_ total k : Nat) :
    k + 1 ≤ (SendData.loop env torecv_ recvbuf_ (b :: rest) sent_ events_ total k).writes := by
  rw [SendData.loop]
  dsimp only
  cases env k with
  | none => simp
  | some room =>
    dsimp only
    split
    · exact SendData.loop_writes env _ _ _ _ _ _ _
    · simp

/-- C19, amended: when a write accepts fewer bytes than the remainder of the
head buffer, the partial-sent offset is advanced by the bytes accepted and
that call of `SendData` returns without another write. `OnEvents` does not
wait for the next writable notification: its loop calls `SendData` again at
once, and that call issues the next write, from the new offset, within the
same call of `OnEvents`. -/
theorem C19_short_write_ends_SendData_not_OnEvents (env : Writes) (self : BufferIOEvent)
    (k room fuel : Nat) (b : Bytes) (rest : List Bytes)
    (hq : self.sendbuf_list_ = b :: rest) (hs : self.sent_ ≤ b.length)
    (hb : b.length < 2147483648) (henv : env k = some room)
    (hshort : room < b.length - self.sent_) :
    self.SendData env k
      = { ret := toInt32 ((self.sent_ + room : Nat) : Int),
          self := { self with sent_ := self.sent_ + room },
          writes := k + 1,
          calls := [Call.Written ((b.drop self.sent_).take room)] }
    ∧ k + 2 ≤ (BufferIOEvent.SendData env { self with sent_ := self.sent_ + room } (k + 1)).writes
    ∧ OnEvents.writeLoop env (fuel + 1) self k
      = (match OnEvents.writeLoop env fuel { self with sent_ := self.sent_ + room } (k + 1) with
          | none => none
          | some (failed, h) =>
            some (failed,
              ⟨h.self, h.writes, [Call.Written ((b.drop self.sent_).take room)] ++ h.calls⟩)) := by
  have hmin : min room (b.length - self.sent_) = room := by omega
  have hne : ¬ (self.sent_ + room = b.length) := by omega
  have h1 : self.SendData env k
      = { ret := toInt32 ((self.sent_ + room : Nat) : Int),
          self := { self with sent_ := self.sent_ + room },
          writes := k + 1,
          calls := [Call.Written ((b.drop self.sent_).take room)] } := by
    unfold BufferIOEvent.SendData
    rw [hq, SendData.loop_cons env _ _ b rest _ _ 0 k room henv (by omega) hs, hmin, if_neg hne]
    have hmod : (0 + (self.sent_ + room)) % 4294967296 = self.sent_ + room := by omega
    rw [hmod]
  refine ⟨h1, ?_, ?_⟩
  · unfold BufferIOEvent.SendData
    simp only [hq]
    exact SendData.loop_writes_cons env _ _ b rest _ _ 0 (k + 1)
  · have hqne : ¬ self.sendbuf_list_ = [] := by rw [hq]; simp
    have hret : ¬ (self.SendData env k).ret < 0 := by
      rw [h1]
      exact toInt32_nonneg_of_small _ (by omega)
    rw [OnEvents.writeLoop, if_neg hqne]
    dsimp only
    rw [if_neg hret, h1]

/-- An instance of C19, amended: "ab" queued, one byte taken per write. -/
theorem C19_short_write_ends_SendData_not_OnEvents_witness :
    oneQueued.SendData oneByOne 0
      = { ret := 1, self := { oneQueued with sent_ := 1 }, writes := 1,
          calls := [Call.Written ['a']] }
    ∧ 2 ≤ (BufferIOEvent.SendData oneByOne { oneQueued with sent_ := 1 } 1).writes :=
  ⟨(C19_short_write_ends_SendData_not_OnEvents oneByOne oneQueued 0 1 1 ['a', 'b'] []
      rfl (by decide) (by decide) rfl (by decide)).1,
   (C19_short_write_ends_SendData_not_OnEvents oneByOne oneQueued 0 1 1 ['a', 'b'] []
      rfl (by decide) (by decide) rfl (by decide)).2.1⟩

/-! ## Receive-side byte conservation -/

theorem ReceiveData_conserves (self : BufferIOEvent) (data : Bytes) :
    (self.ReceiveData [] data.length data).delivery.flatten
        ++ (self.ReceiveData [] data.length data).self.recvbuf_
      = self.recvbuf_ ++ data
    ∧ (self.ReceiveData [] data.length data).delivery.length ≤ 1 := by
  by_cases hd : data = []
  · simp [BufferIOEvent.ReceiveData, Received.delivery, hd]
  · have hlen : 0 < data.length := List.length_pos.mpr hd
    have hpos : ¬ ((data.length : Int) ≤ 0) := by omega
    have hne : self.recvbuf_ ++ data ≠ [] := by simp [hd]
    unfold BufferIOEvent.ReceiveData Received.delivery
    rw [if_neg hpos]
    simp only [Int.toNat_ofNat, List.take_length]
    by_cases hge : (self.recvbuf_ ++ data).length ≥ self.torecv_
    · rw [if_pos hge]
      by_cases hN : self.torecv_ > 0
      · rw [if_pos hN]
        dsimp only
        split
        · simp [List.take_append_drop]
        · rename_i hnil
          simp only [ne_eq, not_not] at hnil
          have hl : ((self.recvbuf_ ++ data).take self.torecv_).length = 0 := by rw [hnil]; rfl
          rw [List.length_take] at hl
          omega
      · rw [if_neg hN]
        dsimp only
        rw [if_pos hne]
        simp
    · rw [if_neg hge]
      simp

theorem RecvSession.run_conserves :
    ∀ (ops : List RecvOp) (s : RecvSession),
      (s.run ops).delivered.flatten ++ (s.run ops).self.recvbuf_
        = s.delivered.flatten ++ s.self.recvbuf_ ++ readBytes ops
      ∧ (s.run ops).delivered.length ≤ s.delivered.length + readCount ops := by
  intro ops
  induction ops with
  | nil => intro s; simp [RecvSession.run, readBytes, readCount]
  | cons op ops ih =>
    intro s
    cases op with
    | Read data =>
      obtain ⟨c1, c2⟩ := ReceiveData_conserves s.self data
      obtain ⟨i1, i2⟩ := ih (s.step (RecvOp.Read data))
      refine ⟨?_, ?_⟩
      · show ((s.step (RecvOp.Read data)).run ops).delivered.flatten
            ++ ((s.step (RecvOp.Read data)).run ops).self.recvbuf_ = _
        rw [i1]
        simp only [RecvSession.step, List.flatten_append, readBytes, List.append_assoc]
        rw [← List.append_assoc
          (s.self.ReceiveData [] data.length data).delivery.flatten, c1]
        simp only [List.append_assoc]
      · show ((s.step (RecvOp.Read data)).run ops).delivered.length ≤ _
        refine Nat.le_trans i2 ?_
        simp only [RecvSession.step, List.length_append, readCount]
        omega
    | SetReceiveLen len =>
      obtain ⟨i1, i2⟩ := ih (s.step (RecvOp.SetReceiveLen len))
      exact ⟨i1, i2⟩

/-- C21: start from any `BufferIOEvent` and perform any sequence of reads
(each returning its bytes, none or more) and `SetReceiveLen` calls. The byte
strings delivered by `ReceiveData`, concatenated in order and followed by the
accumulation buffer, are the bytes that were in the buffer at the start
followed by all bytes read, in order; and there are at most as many deliveries
as reads, each read adding at most one. -/
theorem C21_receive_side_byte_conservation (self : BufferIOEvent) (ops : List RecvOp) :
    (RecvSession.run ⟨self, []⟩ ops).delivered.flatten
        ++ (RecvSession.run ⟨self, []⟩ ops).self.recvbuf_
      = self.recvbuf_ ++ readBytes ops
    ∧ (RecvSession.run ⟨self, []⟩ ops).delivered.length ≤ readCount ops
    ∧ (∀ (s : RecvSession) (data : Bytes),
        (s.step (RecvOp.Read data)).delivered.length ≤ s.delivered.length + 1
        ∧ (s.step (RecvOp.Read data)).delivered.flatten
            ++ (s.step (RecvOp.Read data)).self.recvbuf_
          = s.delivered.flatten ++ s.self.recvbuf_ ++ data)
    ∧ (RecvSession.run ⟨BufferIOEvent.fresh 5 5, []⟩
        [RecvOp.Read ['a', 'b', 'c'], RecvOp.SetReceiveLen 2, RecvOp.Read ['d'],
          RecvOp.Read ['e', 'f']])
      = ⟨{ BufferIOEvent.fresh 5 2 with recvbuf_ := ['e', 'f'] }, [['a', 'b'], ['c', 'd']]⟩ := by
  obtain ⟨h1, h2⟩ := RecvSession.run_conserves ops ⟨self, []⟩
  refine ⟨by simpa using h1, by simpa using h2, ?_, by decide⟩
  intro s data
  obtain ⟨c1, c2⟩ := ReceiveData_conserves s.self data
  refine ⟨?_, ?_⟩
  · simp only [RecvSession.step, List.length_append]; omega
  · simp only [RecvSession.step, List.flatten_append, List.append_assoc]
    rw [c1]

/-! ## Periodic timers in the drain pass -/

theorem TimeDiff_rearmed_neg (now i : timeval) (hn : now.normalised)
    (hi : i.millisecondOrMore) : TimeDiff now (TimeAdd now i) < 0 := by
  obtain ⟨hin, h0, h1, h2⟩ := hi
  unfold timeval.normalised at hn hin
  unfold timeval.usecs at h2
  simp only [TimeAdd, TimeDiff]
  rw [toInt64_of_range (now.tv_usec + i.tv_usec) (by omega) (by omega),
    tdiv_million _ (by omega), tmod_million _ (by omega), tdiv_thousand]
  unfold toInt64 toInt32
  split <;> omega

theorem TimerSet.insert_countP (time : EventId → timeval) (e : EventId) (p : EventId → Bool)
    (hp : p e = false) :
    ∀ l : List EventId, (TimerSet.insert time e l).1.countP p ≤ l.countP p := by
  intro l
  induction l with
  | nil => simp [TimerSet.insert, hp]
  | cons x xs ih =>
    by_cases h1 : Compare (time x) (time e) = true
    · simp only [TimerSet.insert, h1, if_true, List.countP_cons]
      omega
    · by_cases h2 : Compare (time e) (time x) = true
      · have hc : List.countP p (e :: x :: xs) = List.countP p (x :: xs) := by
          simp [List.countP_cons, hp]
        have hi : (TimerSet.insert time e (x :: xs)).1 = e :: x :: xs := by
          simp [TimerSet.insert, h1, h2]
        rw [hi, hc]
      · simp only [TimerSet.insert, h1, h2, if_false]
        exact Nat.le_refl _

theorem PeriodicTimerEvent.OnEvents_effect (OnTimer : Handler) (hk : OnTimer.keepsHeap)
    (e : EventId) (w : EventLoop) :
    (PeriodicTimerEvent.OnEvents OnTimer e w).now_ = w.now_
    ∧ (∀ i, ((PeriodicTimerEvent.OnEvents OnTimer e w).heap i).interval_ = (w.heap i).interval_)
    ∧ (∀ x, x ≠ e → (PeriodicTimerEvent.OnEvents OnTimer e w).Time x = w.Time x)
    ∧ (PeriodicTimerEvent.OnEvents OnTimer e w).Time e = TimeAdd w.now_ (w.heap e).interval_
    ∧ (∀ x ∈ (PeriodicTimerEvent.OnEvents OnTimer e w).timers_, x = e ∨ x ∈ w.timers_)
    ∧ (∀ p : EventId → Bool, p e = false →
        (PeriodicTimerEvent.OnEvents OnTimer e w).timers_.countP p ≤ w.timers_.countP p) := by
  obtain ⟨k1, k2, k3⟩ := hk e w
  refine ⟨?_, ?_, ?_, ?_, ?_, ?_⟩
  · simp [PeriodicTimerEvent.OnEvents, EventLoop.UpdateEvent, EventLoop.SetTime, k2]
  · intro i
    simp only [PeriodicTimerEvent.OnEvents, EventLoop.UpdateEvent, EventLoop.SetTime, k3]
    split
    · rename_i hi; rw [hi]
    · rfl
  · intro x hx
    simp [PeriodicTimerEvent.OnEvents, EventLoop.UpdateEvent, EventLoop.SetTime,
      EventLoop.Time, k3, hx]
  · simp [PeriodicTimerEvent.OnEvents, EventLoop.UpdateEvent, EventLoop.SetTime,
      EventLoop.Time, k2, k3]
  · intro x hx
    simp only [PeriodicTimerEvent.OnEvents, EventLoop.UpdateEvent, EventLoop.SetTime] at hx
    rcases TimerSet.insert_mem _ _ _ _ hx with h | h
    · exact Or.inl h
    · right
      have := (TimerSet.erase_sublist _ _ _).subset h
      rw [← k1]; exact this
  · intro p hp
    simp only [PeriodicTimerEvent.OnEvents, EventLoop.UpdateEvent, EventLoop.SetTime]
    refine Nat.le_trans (TimerSet.insert_countP _ e p hp _) ?_
    rw [← k1]
    exact (TimerSet.erase_sublist _ _ _).countP_le p

/-- The drain of the counterexample of C22 never leaves its loop: after any
number of iterations it has invoked the timer that many times and is still
running. -/
theorem DoTimeout_sub_millisecond_runs_on :
    ∀ (fuel : Nat) (w : EventLoop), w.timers_ = [0] → w.now_ = ⟨0, 0⟩ →
      (w.heap 0).interval_ = ⟨0, 500⟩ → (w.Time 0 = ⟨0, 0⟩ ∨ w.Time 0 = ⟨0, 500⟩) →
      (w.DoTimeout (PeriodicTimerEvent.OnEvents noCallback) fuel).finished = false
      ∧ (w.DoTimeout (PeriodicTimerEvent.OnEvents noCallback) fuel).fired.length = fuel
      ∧ ∀ f ∈ (w.DoTimeout (PeriodicTimerEvent.OnEvents noCallback) fuel).fired,
          f.event = 0 := by
  intro fuel
  induction fuel with
  | zero => intro w _ _ _ _; simp [EventLoop.DoTimeout]
  | succ n ih =>
    intro w hq hnow hint htime
    have hlt : ¬ TimeDiff w.now_ (w.Time 0) < 0 := by
      rw [hnow]
      rcases htime with h | h <;> rw [h] <;> decide
    rw [DoTimeout_due _ n w 0 [] hq hlt]
    dsimp only
    obtain ⟨e1, e2, _, e4, _, _⟩ :=
      PeriodicTimerEvent.OnEvents_effect noCallback (fun _ _ => ⟨rfl, rfl, rfl⟩) 0
        { w with timers_ := [] }
    have hq' : (PeriodicTimerEvent.OnEvents noCallback 0 { w with timers_ := [] }).timers_
        = [0] := by
      simp [PeriodicTimerEvent.OnEvents, EventLoop.UpdateEvent, noCallback, EventLoop.SetTime,
        TimerSet.erase, TimerSet.insert]
    have hnow' : (PeriodicTimerEvent.OnEvents noCallback 0 { w with timers_ := [] }).now_
        = ⟨0, 0⟩ := by rw [e1]; exact hnow
    have hint' : ((PeriodicTimerEvent.OnEvents noCallback 0
        { w with timers_ := [] }).heap 0).interval_ = ⟨0, 500⟩ := by rw [e2]; exact hint
    have htime' : (PeriodicTimerEvent.OnEvents noCallback 0 { w with timers_ := [] }).Time 0
        = ⟨0, 500⟩ := by
      rw [e4]
      show TimeAdd w.now_ (w.heap 0).interval_ = ⟨0, 500⟩
      rw [hnow, hint]; decide
    obtain ⟨i1, i2, i3⟩ := ih _ hq' hnow' hint' (Or.inr htime')
    refine ⟨i1, by simp [i2], ?_⟩
    intro f hf
    rcases List.mem_cons.mp hf with hf | hf
    · rw [hf]
    · exact i3 f hf

theorem DoTimeout_periodic (OnTimer : Handler) (hk : OnTimer.keepsHeap) :
    ∀ (fuel : Nat) (w : EventLoop), w.now_.normalised →
      (∀ e ∈ w.timers_, (w.heap e).interval_.millisecondOrMore) →
      (∀ f ∈ (w.DoTimeout (PeriodicTimerEvent.OnEvents OnTimer) fuel).fired,
          f.event ∈ w.timers_ ∧ w.due f.event = true)
      ∧ ((w.DoTimeout (PeriodicTimerEvent.OnEvents OnTimer) fuel).fired.map Fired.event).Nodup
      ∧ (w.timers_.countP w.due < fuel →
          (w.DoTimeout (PeriodicTimerEvent.OnEvents OnTimer) fuel).finished = true) := by
  intro fuel
  induction fuel with
  | zero =>
    intro w _ _
    simp [EventLoop.DoTimeout]
  | succ n ih =>
    intro w hn hI
    cases hq : w.timers_ with
    | nil =>
      rw [DoTimeout_nil _ n w hq]
      simp
    | cons ite rest =>
      by_cases hlt : TimeDiff w.now_ (w.Time ite) < 0
      · rw [DoTimeout_not_due _ n w ite rest hq hlt]
        simp
      · rw [DoTimeout_due _ n w ite rest hq hlt]
        dsimp only
        obtain ⟨e1, e2, e3, e4, e5, e6⟩ :=
          PeriodicTimerEvent.OnEvents_effect OnTimer hk ite { w with timers_ := rest }
        have hmem : ∀ x ∈ (PeriodicTimerEvent.OnEvents OnTimer ite
            { w with timers_ := rest }).timers_, x ∈ w.timers_ := by
          intro x hx
          rw [hq]
          rcases e5 x hx with h | h
          · rw [h]; simp
          · exact List.mem_cons_of_mem _ h
        have hn' : (PeriodicTimerEvent.OnEvents OnTimer ite
            { w with timers_ := rest }).now_.normalised := by
          rw [e1]; exact hn
        have hI' : ∀ x ∈ (PeriodicTimerEvent.OnEvents OnTimer ite
            { w with timers_ := rest }).timers_,
            ((PeriodicTimerEvent.OnEvents OnTimer ite
              { w with timers_ := rest }).heap x).interval_.millisecondOrMore := by
          intro x hx
          rw [e2 x]
          exact hI x (hmem x hx)
        have hite : ite ∈ w.timers_ := by rw [hq]; simp
        have hdue_ite : (PeriodicTimerEvent.OnEvents OnTimer ite
            { w with timers_ := rest }).due ite = false := by
          simp only [EventLoop.due, decide_eq_false_iff_not, not_not]
          rw [e1, e4]
          exact TimeDiff_rearmed_neg _ _ hn (hI ite hite)
        have hdue_other : ∀ x, x ≠ ite →
            (PeriodicTimerEvent.OnEvents OnTimer ite { w with timers_ := rest }).due x
              = w.due x := by
          intro x hx
          have h3 := e3 x hx
          have h1 : (PeriodicTimerEvent.OnEvents OnTimer ite { w with timers_ := rest }).now_
              = w.now_ := e1
          have h3' : (PeriodicTimerEvent.OnEvents OnTimer ite { w with timers_ := rest }).Time x
              = w.Time x := h3
          simp only [EventLoop.due, h1, h3']
        obtain ⟨i1, i2, i3⟩ := ih _ hn' hI'
        refine ⟨?_, ?_, ?_⟩
        · intro f hf
          rcases List.mem_cons.mp hf with hf | hf
          · rw [hf]
            exact ⟨List.mem_cons_self _ _, by simp [EventLoop.due, hlt]⟩
          · obtain ⟨m1, m2⟩ := i1 f hf
            have hne : f.event ≠ ite := by
              intro h; rw [h, hdue_ite] at m2; exact Bool.false_ne_true m2
            have hm := hmem f.event m1
            rw [hq] at hm
            exact ⟨hm, by rw [← hdue_other f.event hne]; exact m2⟩
        · rw [List.map_cons]
          refine List.nodup_cons.mpr ⟨?_, i2⟩
          intro hin
          obtain ⟨f, hf, hfe⟩ := List.mem_map.mp hin
          have m2 := (i1 f hf).2
          rw [hfe, hdue_ite] at m2
          exact Bool.false_ne_true m2
        · intro hc
          apply i3
          have hd : w.due ite = true := by simp [EventLoop.due, hlt]
          rw [List.countP_cons_of_pos _ _ hd] at hc
          have c1 := e6 _ hdue_ite
          have c2 : rest.countP
              (PeriodicTimerEvent.OnEvents OnTimer ite { w with timers_ := rest }).due
              ≤ rest.countP w.due := by
            apply List.countP_mono_left
            intro x _ hx
            by_cases hxe : x = ite
            · rw [hxe, hdue_ite] at hx; exact absurd hx Bool.false_ne_true
            · rw [← hdue_other x hxe]; exact hx
          have c1' : (PeriodicTimerEvent.OnEvents OnTimer ite
              { w with timers_ := rest }).timers_.countP
              (PeriodicTimerEvent.OnEvents OnTimer ite { w with timers_ := rest }).due
              ≤ rest.countP
                (PeriodicTimerEvent.OnEvents OnTimer ite { w with timers_ := rest }).due := c1
          omega

theorem Handler.keepsHeap.keepsTimers (h : Handler) (hk : h.keepsHeap) : h.keepsTimers := by
  intro e w
  obtain ⟨k1, k2, k3⟩ := hk e w
  refine ⟨k1, k2, ?_⟩
  funext x
  simp only [EventLoop.Time, k3]

theorem DoTimeout_periodic_ascending (OnTimer : Handler) (hk : OnTimer.keepsHeap) :
    ∀ (fuel : Nat) (w : EventLoop), w.now_.normalised →
      (∀ e ∈ w.timers_, (w.heap e).interval_.millisecondOrMore) →
      TimerSet.ordered w.Time w.timers_ →
      (∀ f ∈ (w.DoTimeout (PeriodicTimerEvent.OnEvents OnTimer) fuel).fired,
          f.event ∈ w.timers_ ∧ f.time = w.Time f.event)
      ∧ (w.DoTimeout (PeriodicTimerEvent.OnEvents OnTimer) fuel).fired.Pairwise
          (fun f g => Compare f.time g.time = true) := by
  intro fuel
  induction fuel with
  | zero => intro w _ _ _; simp [EventLoop.DoTimeout]
  | succ n ih =>
    intro w hn hI ho
    cases hq : w.timers_ with
    | nil => rw [DoTimeout_nil _ n w hq]; simp
    | cons ite rest =>
      by_cases hlt : TimeDiff w.now_ (w.Time ite) < 0
      · rw [DoTimeout_not_due _ n w ite rest hq hlt]; simp
      · rw [DoTimeout_due _ n w ite rest hq hlt]
        dsimp only
        rw [hq] at ho
        have hnot : ite ∉ rest :=
          (List.nodup_cons.mp (ordered_nodup w.Time (ite :: rest) ho)).1
        obtain ⟨e1, e2, e3, e4, e5, _⟩ :=
          PeriodicTimerEvent.OnEvents_effect OnTimer hk ite { w with timers_ := rest }
        have hmem : ∀ x ∈ (PeriodicTimerEvent.OnEvents OnTimer ite
            { w with timers_ := rest }).timers_, x ∈ w.timers_ := by
          intro x hx
          rw [hq]
          rcases e5 x hx with h | h
          · rw [h]; simp
          · exact List.mem_cons_of_mem _ h
        have hn' : (PeriodicTimerEvent.OnEvents OnTimer ite
            { w with timers_ := rest }).now_.normalised := by
          rw [e1]; exact hn
        have hI' : ∀ x ∈ (PeriodicTimerEvent.OnEvents OnTimer ite
            { w with timers_ := rest }).timers_,
            ((PeriodicTimerEvent.OnEvents OnTimer ite
              { w with timers_ := rest }).heap x).interval_.millisecondOrMore := by
          intro x hx
          rw [e2 x]
          exact hI x (hmem x hx)
        have hite : ite ∈ w.timers_ := by rw [hq]; simp
        have hdue_ite : (PeriodicTimerEvent.OnEvents OnTimer ite
            { w with timers_ := rest }).due ite = false := by
          simp only [EventLoop.due, decide_eq_false_iff_not, not_not]
          rw [e1, e4]
          exact TimeDiff_rearmed_neg _ _ hn (hI ite hite)
        have ho' : TimerSet.ordered
            (PeriodicTimerEvent.OnEvents OnTimer ite { w with timers_ := rest }).Time
            (PeriodicTimerEvent.OnEvents OnTimer ite { w with timers_ := rest }).timers_ :=
          PeriodicTimerEvent.OnEvents_keepsOrder OnTimer
            (Handler.keepsHeap.keepsTimers OnTimer hk) ite { w with timers_ := rest } hnot
            (List.pairwise_cons.mp ho).2
        obtain ⟨j1, j2⟩ := ih _ hn' hI' ho'
        obtain ⟨p1, _, _⟩ := DoTimeout_periodic OnTimer hk n _ hn' hI'
        have htail : ∀ f ∈ (EventLoop.DoTimeout (PeriodicTimerEvent.OnEvents OnTimer) n
            (PeriodicTimerEvent.OnEvents OnTimer ite { w with timers_ := rest })).fired,
            f.event ∈ rest ∧ f.time = w.Time f.event := by
          intro f hf
          have hne : f.event ≠ ite := by
            intro h
            have m2 := (p1 f hf).2
            rw [h, hdue_ite] at m2
            exact Bool.false_ne_true m2
          refine ⟨?_, ?_⟩
          · rcases e5 f.event (j1 f hf).1 with h | h
            · exact absurd h hne
            · exact h
          · rw [(j1 f hf).2]
            exact e3 f.event hne
        refine ⟨?_, ?_⟩
        · intro f hf
          rcases List.mem_cons.mp hf with hf | hf
          · rw [hf]; exact ⟨List.mem_cons_self _ _, rfl⟩
          · exact ⟨List.mem_cons_of_mem _ (htail f hf).1, (htail f hf).2⟩
        · refine List.pairwise_cons.mpr ⟨?_, j2⟩
          intro g hg
          rw [(htail g hg).2]
          exact (List.pairwise_cons.mp ho).1 _ (htail g hg).1

/-- C13 as stated fails in its order when a callback changes the registry.
A periodic timer scheduled with deadline 5 s + 100 microseconds and interval
50 microseconds, drained at `now_` = 5 s, is fired with deadline 5.000100 s
and then, re-armed, with the earlier deadline 5.000050 s. And with the timer
of deadline 3 s scheduled and a callback in which it schedules the timer of
deadline 1 s, the drain at `now_` = 5 s fires the deadline 3 s before the
deadline 1 s and returns. -/
theorem C13_callback_changes_firing_order :
    (loopRearmEarlier.AddAll [0]).timers_ = [0]
    ∧ ((loopRearmEarlier.AddAll [0]).DoTimeout (PeriodicTimerEvent.OnEvents noCallback) 2).fired
        = [⟨0, TIMER, ⟨5, 100⟩⟩, ⟨0, TIMER, ⟨5, 50⟩⟩]
    ∧ Compare ⟨5, 50⟩ ⟨5, 100⟩ = true
    ∧ ¬ ((loopRearmEarlier.AddAll [0]).DoTimeout
          (PeriodicTimerEvent.OnEvents noCallback) 2).fired.Pairwise
        (fun f g => Compare g.time f.time = false)
    ∧ (((loopBySeconds ⟨5, 0⟩).AddAll [3]).DoTimeout scheduleTimer1 3).fired
        = [⟨3, TIMER, ⟨3, 0⟩⟩, ⟨1, TIMER, ⟨1, 0⟩⟩]
    ∧ (((loopBySeconds ⟨5, 0⟩).AddAll [3]).DoTimeout scheduleTimer1 3).finished = true
    ∧ ¬ (((loopBySeconds ⟨5, 0⟩).AddAll [3]).DoTimeout scheduleTimer1 3).fired.Pairwise
        (fun f g => Compare g.time f.time = false) := by
  decide

/-- C13, amended: after any sequence of `AddEvent` calls on an empty registry
the registry is in ascending deadline order, and with distinct deadlines it
holds every scheduled event. A drain then enters each callback with the fired
event already erased from the registry, as long as callbacks keep the registry
in order (`PeriodicTimerEvent::OnEvents` does). The timers are fired in
ascending, hence non-decreasing, deadline order when the callbacks do not
touch the registry, and also when they are those of periodic timers that
re-arm themselves with intervals of at least one millisecond (normalised
`now_`, an `OnTimer` that leaves the registry and the timer objects alone). -/
theorem C13_DoTimeout_fires_in_deadline_order (OnEvents : Handler)
    (hord : OnEvents.keepsOrder) (el : EventLoop) (es : List EventId)
    (h0 : el.timers_ = []) (fuel : Nat) :
    (es.Pairwise (fun a b => el.Time a ≠ el.Time b) → (el.AddAll es).timers_.Perm es)
    ∧ TimerSet.ordered (el.AddAll es).Time (el.AddAll es).timers_
    ∧ (∀ p ∈ DoTimeout.entered OnEvents fuel (el.AddAll es), p.1 ∉ p.2)
    ∧ (DoTimeout.entered OnEvents fuel (el.AddAll es)).map Prod.fst
        = ((el.AddAll es).DoTimeout OnEvents fuel).fired.map Fired.event
    ∧ (OnEvents.keepsTimers →
        ((el.AddAll es).DoTimeout OnEvents fuel).fired.Pairwise
          (fun f g => Compare f.time g.time = true ∧ Compare g.time f.time = false))
    ∧ (∀ OnTimer : Handler, OnTimer.keepsHeap → (el.AddAll es).now_.normalised →
        (∀ e ∈ (el.AddAll es).timers_,
          ((el.AddAll es).heap e).interval_.millisecondOrMore) →
        (∀ p ∈ DoTimeout.entered (PeriodicTimerEvent.OnEvents OnTimer) fuel (el.AddAll es),
          p.1 ∉ p.2)
        ∧ ((el.AddAll es).DoTimeout (PeriodicTimerEvent.OnEvents OnTimer) fuel).fired.Pairwise
          (fun f g => Compare f.time g.time = true ∧ Compare g.time f.time = false)) := by
  have hempty : TimerSet.ordered el.Time el.timers_ := by
    rw [h0]; exact List.Pairwise.nil
  have hall := AddAll_ordered es el hempty
  refine ⟨?_, hall, DoTimeout_entered_absent OnEvents hord fuel _ hall,
    DoTimeout_entered_events OnEvents fuel _, ?_, ?_⟩
  · intro hp
    have h := AddAll_perm es el hp (by rw [h0]; intro e _ x hx; simp at hx)
    rw [h0, List.append_nil] at h
    exact h.trans (List.reverse_perm es)
  · intro hk
    refine List.Pairwise.imp ?_ (DoTimeout_fired_ascending OnEvents hk fuel _ hall).2
    intro f g hfg
    exact ⟨hfg, Compare_asymm _ _ hfg⟩
  · intro OnTimer hk hn hI
    refine ⟨DoTimeout_entered_absent _
      (PeriodicTimerEvent.OnEvents_keepsOrder OnTimer
        (Handler.keepsHeap.keepsTimers OnTimer hk)) fuel _ hall, ?_⟩
    refine List.Pairwise.imp ?_ (DoTimeout_periodic_ascending OnTimer hk fuel _ hn hI hall).2
    intro f g hfg
    exact ⟨hfg, Compare_asymm _ _ hfg⟩

/-- An instance of C13, amended: timers of deadline 7 s, 1 s and 2 s scheduled
in that order and drained at `now_` = 5 s, with callbacks that do nothing, and
with periodic timers of interval 1 s that re-arm themselves. -/
theorem C13_DoTimeout_fires_in_deadline_order_witness :
    ((loopBySeconds ⟨5, 0⟩).AddAll [7, 1, 2]).timers_ = [1, 2, 7]
    ∧ DoTimeout.entered (PeriodicTimerEvent.OnEvents noCallback) 4
        ((loopBySeconds ⟨5, 0⟩).AddAll [7, 1, 2]) = [(1, [2, 7]), (2, [1, 7])]
    ∧ (∀ p ∈ DoTimeout.entered (PeriodicTimerEvent.OnEvents noCallback) 4
        ((loopBySeconds ⟨5, 0⟩).AddAll [7, 1, 2]), p.1 ∉ p.2)
    ∧ (EventLoop.DoTimeout noCallback 4 ((loopBySeconds ⟨5, 0⟩).AddAll [7, 1, 2])).fired.Pairwise
        (fun f g => Compare f.time g.time = true ∧ Compare g.time f.time = false)
    ∧ (EventLoop.DoTimeout (PeriodicTimerEvent.OnEvents noCallback) 4
        ((loopBySeconds ⟨5, 0⟩).AddAll [7, 1, 2])).fired.Pairwise
        (fun f g => Compare f.time g.time = true ∧ Compare g.time f.time = false) :=
  ⟨by decide, by decide,
   (C13_DoTimeout_fires_in_deadline_order (PeriodicTimerEvent.OnEvents noCallback)
      (PeriodicTimerEvent.OnEvents_keepsOrder noCallback (fun _ _ => ⟨rfl, rfl, rfl⟩))
      (loopBySeconds ⟨5, 0⟩) [7, 1, 2] rfl 4).2.2.1,
   (C13_DoTimeout_fires_in_deadline_order noCallback
      (Handler.keepsTimers.keepsOrder noCallback (fun _ _ => ⟨rfl, rfl, rfl⟩))
      (loopBySeconds ⟨5, 0⟩) [7, 1, 2] rfl 4).2.2.2.2.1 (fun _ _ => ⟨rfl, rfl, rfl⟩),
   ((C13_DoTimeout_fires_in_deadline_order noCallback
      (Handler.keepsTimers.keepsOrder noCallback (fun _ _ => ⟨rfl, rfl, rfl⟩))
      (loopBySeconds ⟨5, 0⟩) [7, 1, 2] rfl 4).2.2.2.2.2 noCallback
        (fun _ _ => ⟨rfl, rfl, rfl⟩) (by decide) (by decide)).2⟩

end eventloop
